import Mathlib

/-!
Verification development for the kubefed FederatedTypeConfig controller
(`pkg/controller/federatedtypeconfig/controller.go`) and the CRUD / event
test oracles (`test/common/crudtester.go`, `test/e2e/federate.go`).

The controller is embedded shallowly: one `reconcile` call is a pure
function of the controller configuration, an environment oracle (outcomes
of the external calls it makes), the current map of stop channels, and the
informer store.  Channels are identifiers allocated from a counter; closing
a channel records its identifier in a closed set.  Every externally visible
action of a reconcile is also recorded in an event trace, in program order.

Notes on the embedding:
- the informer store only ever holds FederatedTypeConfig objects of the
  single KubeFed system namespace (the informer is namespace-scoped), so
  the store is modelled as a list keyed by object name;
- `cache.Store.GetByKey` on the in-memory store cannot fail, so the error
  branch of `objCopyFromCache` is not modelled;
- `SetFederatedTypeConfigDefaults`, `GetPropagationEnabled`,
  `GetStatusEnabled` and `GetNamespaced` live outside the extracted
  sources; their net effect is absorbed into the boolean fields
  `propagationEnabled`, `statusEnabled` and `targetNamespaced` of the
  descriptor, and `IsNamespace` is the name test against the well-known
  name `namespaces` used by the store lookup in
  `getFederatedNamespaceAPIResource`.
-/

namespace KubeFed

/-- A Kubernetes API resource reference as carried by a FederatedTypeConfig
(group/version/kind plus the namespaced flag). -/
structure APIResource where
  group : String
  version : String
  kind : String
  pluralName : String
  namespaced : Bool
deriving DecidableEq, Repr

/-- The `Running` value of the FederatedTypeConfig controller status field. -/
def ControllerStatusRunning : String := "Running"

/-- The `NotRunning` value of the FederatedTypeConfig controller status field. -/
def ControllerStatusNotRunning : String := "NotRunning"

/-- The finalizer placed on FederatedTypeConfig objects by the controller
(`core.kubefed.io/federated-type-config`). -/
def finalizerName : String := "core.kubefed.io/federated-type-config"

/-- The well-known name of the namespaces type descriptor
(`utils.NamespaceName`). -/
def NamespaceName : String := "namespaces"

/-- `metav1.NamespaceAll` is the empty string. -/
def NamespaceAll : String := ""

/-- A FederatedTypeConfig object as the reconcile loop sees it: identity,
lifecycle metadata, the enablement flags (after defaulting), the API
resources it declares, and its status subresource. -/
structure FederatedTypeConfig where
  name : String
  generation : Int
  deletionTimestamp : Bool
  finalizers : List String
  propagationEnabled : Bool
  statusEnabled : Bool
  targetNamespaced : Bool
  federatedType : APIResource
  statusType : Option APIResource
  observedGeneration : Int
  propagationControllerStatus : String
  statusControllerStatus : Option String
deriving DecidableEq, Repr

/-- `FederatedTypeConfig.IsNamespace`: whether this descriptor is the
namespaces descriptor. -/
def isNamespace (tc : FederatedTypeConfig) : Bool :=
  tc.name == NamespaceName

/-- Whether the controller's finalizer is present on the descriptor. -/
def hasFinalizer (tc : FederatedTypeConfig) : Bool :=
  tc.finalizers.contains finalizerName

/-- The descriptor after `controllerutil.AddFinalizer` when the finalizer is
missing (identity when it is already present). -/
def withFinalizer (tc : FederatedTypeConfig) : FederatedTypeConfig :=
  if hasFinalizer tc then tc
  else { tc with finalizers := tc.finalizers ++ [finalizerName] }

/-- The informer store for the KubeFed system namespace, keyed by name. -/
structure Store where
  items : List FederatedTypeConfig
deriving DecidableEq, Repr

/-- `objCopyFromCache` restricted to the system namespace: look an object up
by name. -/
def Store.getByName (s : Store) (name : String) : Option FederatedTypeConfig :=
  s.items.find? (fun tc => tc.name == name)

/-- The slice of `utils.ControllerConfig` the type-config controller reads. -/
structure ControllerConfig where
  kubeFedNamespace : String
  targetNamespace : String
  rawResourceStatusCollection : Bool
deriving DecidableEq, Repr

/-- `limitedScope`: the control plane is namespace-scoped when the target
namespace is not `metav1.NamespaceAll`. -/
def isLimitedScope (cfg : ControllerConfig) : Bool :=
  cfg.targetNamespace != NamespaceAll

/-- Outcomes of the external calls a reconcile makes (patching finalizers,
starting the sync / status controllers, writing status).  `true` means the
call succeeds. -/
structure Env where
  patchOK : Bool
  syncStartOK : Bool
  statusStartOK : Bool
  updateStatusOK : Bool
deriving DecidableEq, Repr

/-- Channel allocation state: a counter of fresh channel identifiers and the
set of identifiers whose channels have been closed. -/
structure ChanWorld where
  nextId : Nat
  closed : List Nat
deriving DecidableEq, Repr

/-- The mutable state of the type-config controller: the name→stopChan map
(`Controller.stopChannels`) and the channel world. -/
structure CtrlState where
  stopChannels : List (String × Nat)
  chans : ChanWorld
deriving DecidableEq, Repr

/-- The state of a freshly constructed controller (`newController`). -/
def initialState : CtrlState :=
  { stopChannels := [], chans := { nextId := 0, closed := [] } }

/-- Lookup in the name→stopChan map (`getStopChannel`). -/
def mapLookup : List (String × Nat) → String → Option Nat
  | [], _ => none
  | p :: m, k => if p.1 == k then some p.2 else mapLookup m k

/-- Removal from the name→stopChan map (`delete(c.stopChannels, key)`). -/
def mapDelete : List (String × Nat) → String → List (String × Nat)
  | [], _ => []
  | p :: m, k => if p.1 == k then mapDelete m k else p :: mapDelete m k

/-- The keys of the name→stopChan map. -/
def mapKeys (m : List (String × Nat)) : List String :=
  m.map (fun p => p.1)

/-- Externally visible actions of one reconcile, in program order. -/
inductive Event where
  | holderChan (key : String) (ch : Nat)
  | addEntry (key : String) (ch : Nat)
  | removeEntry (key : String)
  | closeChan (ch : Nat)
  | syncStarted (name : String) (ch : Nat)
  | syncStartFailed (name : String) (ch : Nat)
  | statusStarted (name : String) (ch : Nat)
  | statusStartFailed (key : String) (ch : Nat)
  | enqueue (name : String)
  | finalizerAdded (name : String)
  | finalizerRemoved (name : String)
  | statusUpdate (tc : FederatedTypeConfig)
deriving DecidableEq, Repr

/-- `utils.ReconciliationStatus`. -/
inductive ReconciliationStatus where
  | allOK
  | needsRecheck
  | error
deriving DecidableEq, Repr

/-- Result of one reconcile: the new controller state, the returned
reconciliation status, and the trace of visible actions. -/
structure ReconcileOut where
  state : CtrlState
  status : ReconciliationStatus
  events : List Event
deriving DecidableEq, Repr

/-- `getFederatedNamespaceAPIResource`: the federated API resource of the
namespaces descriptor, when that descriptor is in the store. -/
def getFederatedNamespaceAPIResource (store : Store) : Option APIResource :=
  (store.getByName NamespaceName).map (fun tc => tc.federatedType)

/-- `namespaceFTCExists`. -/
def namespaceFTCExists (store : Store) : Bool :=
  (getFederatedNamespaceAPIResource store).isSome

/-- `reconcileOnNamespaceFTCUpdate`: enqueue every namespaced descriptor in
the store other than the namespaces descriptor itself. -/
def reconcileOnNamespaceFTCUpdate (store : Store) : List Event :=
  (store.items.filter (fun tc => tc.targetNamespaced && !(isNamespace tc))).map
    (fun tc => Event.enqueue tc.name)

/-- `isEnabledFederatedServiceStatusCollection`: status collection is enabled
only for the descriptor named `services` with the status-collection flag set
and a status API resource defined. -/
def isEnabledFederatedServiceStatusCollection (tc : FederatedTypeConfig) : Bool :=
  if tc.statusEnabled && tc.name == "services" then
    match tc.statusType with
    | none => false
    | some _ => true
  else false

/-- `statusControllerEnabled` as computed at the top of `reconcile`: the
RawResourceStatusCollection feature gate must be off and federated service
status collection enabled for this descriptor. -/
def statusControllerEnabledFor (cfg : ControllerConfig) (tc : FederatedTypeConfig) : Bool :=
  !cfg.rawResourceStatusCollection && isEnabledFederatedServiceStatusCollection tc

/-- The guard of the namespaced-control-plane special case: limited scope,
propagation enabled, and a cluster-scoped target type. -/
def specialCase (cfg : ControllerConfig) (tc : FederatedTypeConfig) : Bool :=
  isLimitedScope cfg && tc.propagationEnabled && !tc.targetNamespaced

/-- `stopController` on the state: close the channel and remove the map
entry. -/
def stopEntry (st : CtrlState) (key : String) (ch : Nat) : CtrlState :=
  { stopChannels := mapDelete st.stopChannels key,
    chans := { nextId := st.chans.nextId, closed := ch :: st.chans.closed } }

/-- State after registering a freshly allocated channel under `key`
(`c.stopChannels[key] = stopChan` for a channel made with `make(chan)`). -/
def addFreshEntry (st : CtrlState) (key : String) : CtrlState :=
  { stopChannels := (key, st.chans.nextId) :: st.stopChannels,
    chans := { nextId := st.chans.nextId + 1, closed := st.chans.closed } }

/-- State after allocating a fresh channel and immediately closing it (the
start-controller failure path). -/
def closeFreshChan (st : CtrlState) : CtrlState :=
  { stopChannels := st.stopChannels,
    chans := { nextId := st.chans.nextId + 1, closed := st.chans.nextId :: st.chans.closed } }

/-- The descriptor as published by `UpdateStatus`: observed generation set
to the metadata generation, and the two controller status fields set from
the given running bits. -/
def publishStatus (tc : FederatedTypeConfig) (syncControllerRunning statusControllerRunning : Bool) :
    FederatedTypeConfig :=
  { tc with
    observedGeneration := tc.generation,
    propagationControllerStatus :=
      if syncControllerRunning then ControllerStatusRunning else ControllerStatusNotRunning,
    statusControllerStatus :=
      some (if statusControllerRunning then ControllerStatusRunning else ControllerStatusNotRunning) }

/-- Final step of `reconcile` on the non-deleted path: set
`status.observedGeneration`, publish the two controller statuses from the
start/stop flags of this pass, and call `UpdateStatus`. -/
def writeStatus (env : Env) (st : CtrlState) (tc : FederatedTypeConfig) (ev : List Event)
    (startNewSync stopSync syncRunning startNewStatus stopStatus statusRunning : Bool) :
    ReconcileOut :=
  let tcPub := publishStatus tc (startNewSync || (syncRunning && !stopSync))
    (startNewStatus || (statusRunning && !stopStatus))
  if env.updateStatusOK then
    { state := st, status := .allOK, events := ev ++ [Event.statusUpdate tcPub] }
  else
    { state := st, status := .error, events := ev }

/-- The `startSyncController` call made by `refreshSyncController` after the
stop half of the refresh. -/
def refreshStart (env : Env) (store : Store) (st : CtrlState)
    (tc : FederatedTypeConfig) (ev : List Event)
    (startNewSync stopSync syncRunning startNewStatus stopStatus statusRunning : Bool) :
    ReconcileOut :=
  if tc.targetNamespaced && !namespaceFTCExists store then
    { state := st, status := .error, events := ev }
  else if env.syncStartOK then
    writeStatus env (addFreshEntry st tc.name)
      tc (ev ++ [Event.syncStarted tc.name st.chans.nextId, Event.addEntry tc.name st.chans.nextId])
      startNewSync stopSync syncRunning startNewStatus stopStatus statusRunning
  else
    { state := closeFreshChan st, status := .error,
      events := ev ++ [Event.syncStartFailed tc.name st.chans.nextId, Event.closeChan st.chans.nextId] }

/-- The refresh step of `reconcile`: when the sync controller was neither
started nor stopped in this pass and the observed generation lags the
metadata generation, stop the registered sync controller (if any) and start
a new one (`refreshSyncController`). -/
def refreshPhase (env : Env) (store : Store) (st : CtrlState)
    (tc : FederatedTypeConfig) (ev : List Event)
    (startNewSync stopSync syncRunning startNewStatus stopStatus statusRunning : Bool) :
    ReconcileOut :=
  if !startNewSync && !stopSync && !(tc.observedGeneration == tc.generation) then
    match mapLookup st.stopChannels tc.name with
    | some ch =>
      refreshStart env store (stopEntry st tc.name ch)
        tc (ev ++ [Event.closeChan ch, Event.removeEntry tc.name])
        startNewSync stopSync syncRunning startNewStatus stopStatus statusRunning
    | none =>
      refreshStart env store st tc ev
        startNewSync stopSync syncRunning startNewStatus stopStatus statusRunning
  else
    writeStatus env st tc ev startNewSync stopSync syncRunning startNewStatus stopStatus statusRunning

/-- The status-controller start/stop step of `reconcile`, keyed by
`typeConfig.Name + "/status"`; `statusChan` is the lookup taken at the top
of the reconcile. -/
def statusPhase (cfg : ControllerConfig) (env : Env) (store : Store) (st : CtrlState)
    (tc : FederatedTypeConfig) (ev : List Event)
    (startNewSync stopSync syncRunning : Bool) (statusChan : Option Nat) : ReconcileOut :=
  match statusChan with
  | none =>
    if statusControllerEnabledFor cfg tc then
      if env.statusStartOK then
        refreshPhase env store (addFreshEntry st (tc.name ++ "/status"))
          tc (ev ++ [Event.statusStarted tc.name st.chans.nextId,
                     Event.addEntry (tc.name ++ "/status") st.chans.nextId])
          startNewSync stopSync syncRunning true false false
      else
        { state := closeFreshChan st, status := .error,
          events := ev ++ [Event.statusStartFailed (tc.name ++ "/status") st.chans.nextId,
                           Event.closeChan st.chans.nextId] }
    else
      refreshPhase env store st tc ev startNewSync stopSync syncRunning false false false
  | some ch =>
    if !statusControllerEnabledFor cfg tc then
      refreshPhase env store (stopEntry st (tc.name ++ "/status") ch)
        tc (ev ++ [Event.closeChan ch, Event.removeEntry (tc.name ++ "/status")])
        startNewSync stopSync syncRunning false true true
    else
      refreshPhase env store st tc ev startNewSync stopSync syncRunning false false true

/-- The sync-controller start/stop step of `reconcile`; `syncChan` and
`statusChan` are the two lookups taken at the top of the reconcile. -/
def syncPhase (cfg : ControllerConfig) (env : Env) (store : Store) (st : CtrlState)
    (tc : FederatedTypeConfig) (ev : List Event)
    (syncChan statusChan : Option Nat) : ReconcileOut :=
  match syncChan with
  | none =>
    if tc.propagationEnabled then
      if tc.targetNamespaced && !namespaceFTCExists store then
        { state := st, status := .error, events := ev }
      else if env.syncStartOK then
        statusPhase cfg env store (addFreshEntry st tc.name)
          tc (ev ++ [Event.syncStarted tc.name st.chans.nextId,
                     Event.addEntry tc.name st.chans.nextId])
          true false false statusChan
      else
        { state := closeFreshChan st, status := .error,
          events := ev ++ [Event.syncStartFailed tc.name st.chans.nextId,
                           Event.closeChan st.chans.nextId] }
    else
      statusPhase cfg env store st tc ev false false false statusChan
  | some ch =>
    if !tc.propagationEnabled || (tc.targetNamespaced && !namespaceFTCExists store) then
      statusPhase cfg env store (stopEntry st tc.name ch)
        tc (ev ++ [Event.closeChan ch, Event.removeEntry tc.name])
        false true true statusChan
    else
      statusPhase cfg env store st tc ev false false true statusChan

/-- The events of the finalizer-ensure step: a finalizer patch when it was
missing, and the re-enqueue of all namespaced descriptors when this first
adds the finalizer to the namespaces descriptor. -/
def normalPrefix (store : Store) (tc : FederatedTypeConfig) : List Event :=
  (if hasFinalizer tc then [] else [Event.finalizerAdded tc.name])
  ++ (if !hasFinalizer tc && isNamespace tc then reconcileOnNamespaceFTCUpdate store else [])

/-- The non-deleted, non-special path of `reconcile`: ensure the finalizer
(enqueueing all namespaced descriptors when this first adds it to the
namespaces descriptor), then run the sync, status, refresh and status-write
steps. -/
def reconcileNormal (cfg : ControllerConfig) (env : Env) (store : Store) (st : CtrlState)
    (tc0 : FederatedTypeConfig) : ReconcileOut :=
  if !hasFinalizer tc0 && !env.patchOK then
    { state := st, status := .error, events := [] }
  else
    syncPhase cfg env store st (withFinalizer tc0) (normalPrefix store tc0)
      (mapLookup st.stopChannels tc0.name)
      (mapLookup st.stopChannels (tc0.name ++ "/status"))

/-- The deletion path of `reconcile`: stop the sync and status controllers
that are running, enqueue all namespaced descriptors when the namespaces
descriptor is being deleted, then remove the finalizer. -/
def reconcileDeleted (env : Env) (store : Store) (st : CtrlState)
    (tc : FederatedTypeConfig) : ReconcileOut :=
  let syncChan := mapLookup st.stopChannels tc.name
  let statusChan := mapLookup st.stopChannels (tc.name ++ "/status")
  let st1 := match syncChan with
    | some ch => stopEntry st tc.name ch
    | none => st
  let evA := match syncChan with
    | some ch => [Event.closeChan ch, Event.removeEntry tc.name]
    | none => []
  let st2 := match statusChan with
    | some ch => stopEntry st1 (tc.name ++ "/status") ch
    | none => st1
  let evB := match statusChan with
    | some ch => [Event.closeChan ch, Event.removeEntry (tc.name ++ "/status")]
    | none => []
  let evC := if isNamespace tc then reconcileOnNamespaceFTCUpdate store else []
  if hasFinalizer tc then
    if env.patchOK then
      { state := st2, status := .allOK,
        events := evA ++ evB ++ evC ++ [Event.finalizerRemoved tc.name] }
    else
      { state := st2, status := .error, events := evA ++ evB ++ evC }
  else
    { state := st2, status := .allOK, events := evA ++ evB ++ evC }

/-- The namespaced-control-plane special case of `reconcile`: record a
placeholder stop channel under the descriptor's name when none is
registered, set the observed generation, publish both controller statuses
as `NotRunning`, and return. -/
def reconcileSpecial (env : Env) (st : CtrlState) (tc : FederatedTypeConfig) : ReconcileOut :=
  let st1 := match mapLookup st.stopChannels tc.name with
    | some _ => st
    | none => addFreshEntry st tc.name
  let evA := match mapLookup st.stopChannels tc.name with
    | some _ => ([] : List Event)
    | none => [Event.holderChan tc.name st.chans.nextId]
  let tcPub := publishStatus tc false false
  if env.updateStatusOK then
    { state := st1, status := .allOK, events := evA ++ [Event.statusUpdate tcPub] }
  else
    { state := st1, status := .error, events := evA }

/-- One reconcile of the FederatedTypeConfig controller for the descriptor
named `name` (`Controller.reconcile`). -/
def reconcile (cfg : ControllerConfig) (env : Env) (store : Store) (st : CtrlState)
    (name : String) : ReconcileOut :=
  match store.getByName name with
  | none => { state := st, status := .allOK, events := [] }
  | some tc =>
    if specialCase cfg tc then
      reconcileSpecial env st tc
    else if tc.deletionTimestamp then
      reconcileDeleted env store st tc
    else
      reconcileNormal cfg env store st tc

/-- The channels of successful sync-controller starts in a trace. -/
def startedSyncChans (evs : List Event) : List Nat :=
  evs.filterMap (fun e => match e with
    | Event.syncStarted _ ch => some ch
    | _ => none)

/-- The channels of successful status-controller starts in a trace. -/
def startedStatusChans (evs : List Event) : List Nat :=
  evs.filterMap (fun e => match e with
    | Event.statusStarted _ ch => some ch
    | _ => none)

/-- The keys of the map registrations in a trace (controller registrations
and placeholder registrations alike). -/
def addEntryKeys (evs : List Event) : List String :=
  evs.filterMap (fun e => match e with
    | Event.addEntry k _ => some k
    | Event.holderChan k _ => some k
    | _ => none)

/-- Replay one trace event over a name→stopChan map. -/
def applyEvent (m : List (String × Nat)) (e : Event) : List (String × Nat) :=
  match e with
  | Event.addEntry k ch => (k, ch) :: m
  | Event.holderChan k ch => (k, ch) :: m
  | Event.removeEntry k => mapDelete m k
  | _ => m

/-- Replaying a trace, check that every map registration happens at a key
that is not currently registered. -/
def addsOnlyWhenAbsent (m : List (String × Nat)) : List Event → Bool
  | [] => true
  | e :: es =>
    (match e with
     | Event.addEntry k _ => (mapLookup m k).isNone
     | Event.holderChan k _ => (mapLookup m k).isNone
     | _ => true) && addsOnlyWhenAbsent (applyEvent m e) es

theorem mapLookup_cons_self (m : List (String × Nat)) (k : String) (v : Nat) :
    mapLookup ((k, v) :: m) k = some v := by
  simp [mapLookup]

theorem mapLookup_cons_ne (m : List (String × Nat)) (k k' : String) (v : Nat)
    (h : k' ≠ k) : mapLookup ((k, v) :: m) k' = mapLookup m k' := by
  simp [mapLookup, Ne.symm h]

theorem mapLookup_delete_self (m : List (String × Nat)) (k : String) :
    mapLookup (mapDelete m k) k = none := by
  induction m with
  | nil => rfl
  | cons p m ih =>
    by_cases h : p.1 = k
    · simpa [mapDelete, h] using ih
    · simpa [mapDelete, mapLookup, h] using ih

theorem mapLookup_delete_ne (m : List (String × Nat)) (k k' : String)
    (h : k' ≠ k) : mapLookup (mapDelete m k) k' = mapLookup m k' := by
  induction m with
  | nil => rfl
  | cons p m ih =>
    by_cases hp : p.1 = k
    · simpa [mapDelete, mapLookup, hp, Ne.symm h] using ih
    · by_cases hq : p.1 = k'
      · simp [mapDelete, mapLookup, hp, hq, h]
      · simpa [mapDelete, mapLookup, hp, hq] using ih

theorem mapLookup_eq_none_iff (m : List (String × Nat)) (k : String) :
    mapLookup m k = none ↔ k ∉ mapKeys m := by
  induction m with
  | nil => simp [mapLookup, mapKeys]
  | cons p m ih =>
    by_cases hp : p.1 = k
    · simp [mapLookup, mapKeys, hp]
    · simp [mapLookup, mapKeys, hp, Ne.symm hp] at ih ⊢
      exact ih

theorem mapKeys_delete_sublist (m : List (String × Nat)) (k : String) :
    (mapKeys (mapDelete m k)).Sublist (mapKeys m) := by
  induction m with
  | nil => simp [mapDelete]
  | cons p m ih =>
    simp only [mapDelete]
    by_cases h : p.1 = k
    · rw [if_pos (by simp [h])]
      exact ih.trans (List.sublist_cons_self _ _)
    · rw [if_neg (by simp [h])]
      simp only [mapKeys, List.map_cons]
      exact List.Sublist.cons₂ _ ih

theorem nodup_mapKeys_delete (m : List (String × Nat)) (k : String)
    (h : (mapKeys m).Nodup) : (mapKeys (mapDelete m k)).Nodup :=
  (mapKeys_delete_sublist m k).nodup h

theorem nodup_mapKeys_cons (m : List (String × Nat)) (k : String) (v : Nat)
    (h : (mapKeys m).Nodup) (hk : mapLookup m k = none) :
    (mapKeys ((k, v) :: m)).Nodup := by
  have hnot : k ∉ mapKeys m := (mapLookup_eq_none_iff m k).mp hk
  simpa [mapKeys] using And.intro hnot h

@[simp] theorem withFinalizer_name (tc : FederatedTypeConfig) :
    (withFinalizer tc).name = tc.name := by
  unfold withFinalizer; split <;> rfl

@[simp] theorem withFinalizer_propagationEnabled (tc : FederatedTypeConfig) :
    (withFinalizer tc).propagationEnabled = tc.propagationEnabled := by
  unfold withFinalizer; split <;> rfl

@[simp] theorem withFinalizer_targetNamespaced (tc : FederatedTypeConfig) :
    (withFinalizer tc).targetNamespaced = tc.targetNamespaced := by
  unfold withFinalizer; split <;> rfl

@[simp] theorem withFinalizer_statusEnabled (tc : FederatedTypeConfig) :
    (withFinalizer tc).statusEnabled = tc.statusEnabled := by
  unfold withFinalizer; split <;> rfl

@[simp] theorem withFinalizer_statusType (tc : FederatedTypeConfig) :
    (withFinalizer tc).statusType = tc.statusType := by
  unfold withFinalizer; split <;> rfl

@[simp] theorem withFinalizer_observedGeneration (tc : FederatedTypeConfig) :
    (withFinalizer tc).observedGeneration = tc.observedGeneration := by
  unfold withFinalizer; split <;> rfl

@[simp] theorem withFinalizer_generation (tc : FederatedTypeConfig) :
    (withFinalizer tc).generation = tc.generation := by
  unfold withFinalizer; split <;> rfl

@[simp] theorem statusControllerEnabledFor_withFinalizer (cfg : ControllerConfig)
    (tc : FederatedTypeConfig) :
    statusControllerEnabledFor cfg (withFinalizer tc) = statusControllerEnabledFor cfg tc := by
  simp [statusControllerEnabledFor, isEnabledFederatedServiceStatusCollection]

@[simp] theorem isNamespace_withFinalizer (tc : FederatedTypeConfig) :
    isNamespace (withFinalizer tc) = isNamespace tc := by
  simp [isNamespace]

theorem statusKey_ne (n : String) : n ++ "/status" ≠ n := by
  intro h
  have hl := congrArg String.length h
  rw [String.length_append] at hl
  have h7 : ("/status" : String).length = 7 := rfl
  rw [h7] at hl
  omega

@[simp] theorem startedSyncChans_append (a b : List Event) :
    startedSyncChans (a ++ b) = startedSyncChans a ++ startedSyncChans b := by
  simp [startedSyncChans]

@[simp] theorem startedStatusChans_append (a b : List Event) :
    startedStatusChans (a ++ b) = startedStatusChans a ++ startedStatusChans b := by
  simp [startedStatusChans]

@[simp] theorem addEntryKeys_append (a b : List Event) :
    addEntryKeys (a ++ b) = addEntryKeys a ++ addEntryKeys b := by
  simp [addEntryKeys]

@[simp] theorem startedSyncChans_enqueues (store : Store) :
    startedSyncChans (reconcileOnNamespaceFTCUpdate store) = [] := by
  simp [startedSyncChans, reconcileOnNamespaceFTCUpdate, List.filterMap_map]

@[simp] theorem startedStatusChans_enqueues (store : Store) :
    startedStatusChans (reconcileOnNamespaceFTCUpdate store) = [] := by
  simp [startedStatusChans, reconcileOnNamespaceFTCUpdate, List.filterMap_map]

@[simp] theorem addEntryKeys_enqueues (store : Store) :
    addEntryKeys (reconcileOnNamespaceFTCUpdate store) = [] := by
  simp [addEntryKeys, reconcileOnNamespaceFTCUpdate, List.filterMap_map]

theorem writeStatus_state (env : Env) (st : CtrlState) (tc : FederatedTypeConfig)
    (ev : List Event) (b1 b2 b3 b4 b5 b6 : Bool) :
    (writeStatus env st tc ev b1 b2 b3 b4 b5 b6).state = st := by
  unfold writeStatus; split <;> rfl

theorem writeStatus_events_extend (env : Env) (st : CtrlState) (tc : FederatedTypeConfig)
    (ev : List Event) (b1 b2 b3 b4 b5 b6 : Bool) :
    ∃ evs, (writeStatus env st tc ev b1 b2 b3 b4 b5 b6).events = ev ++ evs ∧
      startedSyncChans evs = [] ∧ startedStatusChans evs = [] ∧ addEntryKeys evs = [] := by
  unfold writeStatus
  split
  · exact ⟨_, rfl, rfl, rfl, rfl⟩
  · exact ⟨[], by simp, rfl, rfl, rfl⟩

theorem refreshStart_statusKey_lookup (env : Env) (store : Store) (st : CtrlState)
    (tc : FederatedTypeConfig) (ev : List Event) (b1 b2 b3 b4 b5 b6 : Bool) :
    mapLookup (refreshStart env store st tc ev b1 b2 b3 b4 b5 b6).state.stopChannels
        (tc.name ++ "/status")
      = mapLookup st.stopChannels (tc.name ++ "/status") := by
  unfold refreshStart
  split
  · rfl
  · split
    · rw [writeStatus_state]
      simp [addFreshEntry, mapLookup_cons_ne _ _ _ _ (statusKey_ne tc.name)]
    · simp [closeFreshChan]

theorem refreshStart_statusStarted (env : Env) (store : Store) (st : CtrlState)
    (tc : FederatedTypeConfig) (ev : List Event) (b1 b2 b3 b4 b5 b6 : Bool) :
    startedStatusChans (refreshStart env store st tc ev b1 b2 b3 b4 b5 b6).events
      = startedStatusChans ev := by
  unfold refreshStart
  split
  · rfl
  · split
    · obtain ⟨evs, he, -, hs, -⟩ := writeStatus_events_extend env
        (addFreshEntry st tc.name) tc _ b1 b2 b3 b4 b5 b6
      rw [he]
      simp only [startedStatusChans_append, hs, List.append_nil]
      simp [startedStatusChans]
    · simp [startedStatusChans]

theorem refreshStart_events_extend (env : Env) (store : Store) (st : CtrlState)
    (tc : FederatedTypeConfig) (ev : List Event) (b1 b2 b3 b4 b5 b6 : Bool) :
    ∃ evs, (refreshStart env store st tc ev b1 b2 b3 b4 b5 b6).events = ev ++ evs := by
  unfold refreshStart
  split
  · exact ⟨[], by simp⟩
  · split
    · obtain ⟨evs, he, -⟩ := writeStatus_events_extend env
        (addFreshEntry st tc.name) tc _ b1 b2 b3 b4 b5 b6
      exact ⟨[Event.syncStarted tc.name st.chans.nextId,
        Event.addEntry tc.name st.chans.nextId] ++ evs, by rw [he, List.append_assoc]⟩
    · exact ⟨[Event.syncStartFailed tc.name st.chans.nextId,
        Event.closeChan st.chans.nextId], rfl⟩

theorem refreshPhase_statusKey_lookup (env : Env) (store : Store) (st : CtrlState)
    (tc : FederatedTypeConfig) (ev : List Event) (b1 b2 b3 b4 b5 b6 : Bool) :
    mapLookup (refreshPhase env store st tc ev b1 b2 b3 b4 b5 b6).state.stopChannels
        (tc.name ++ "/status")
      = mapLookup st.stopChannels (tc.name ++ "/status") := by
  unfold refreshPhase
  split
  · split
    · rw [refreshStart_statusKey_lookup]
      simp [stopEntry, mapLookup_delete_ne _ _ _ (statusKey_ne tc.name)]
    · rw [refreshStart_statusKey_lookup]
  · rw [writeStatus_state]

theorem refreshPhase_statusStarted (env : Env) (store : Store) (st : CtrlState)
    (tc : FederatedTypeConfig) (ev : List Event) (b1 b2 b3 b4 b5 b6 : Bool) :
    startedStatusChans (refreshPhase env store st tc ev b1 b2 b3 b4 b5 b6).events
      = startedStatusChans ev := by
  unfold refreshPhase
  split
  · split
    · rw [refreshStart_statusStarted]
      simp only [startedStatusChans_append]
      simp [startedStatusChans]
    · rw [refreshStart_statusStarted]
  · obtain ⟨evs, he, -, hs, -⟩ := writeStatus_events_extend env st tc ev b1 b2 b3 b4 b5 b6
    rw [he]
    simp only [startedStatusChans_append, hs, List.append_nil]

theorem refreshPhase_events_extend (env : Env) (store : Store) (st : CtrlState)
    (tc : FederatedTypeConfig) (ev : List Event) (b1 b2 b3 b4 b5 b6 : Bool) :
    ∃ evs, (refreshPhase env store st tc ev b1 b2 b3 b4 b5 b6).events = ev ++ evs := by
  unfold refreshPhase
  split
  · split
    · rename_i ch heq
      obtain ⟨evs, he⟩ := refreshStart_events_extend env store
        (stopEntry st tc.name ch) tc (ev ++ [Event.closeChan ch, Event.removeEntry tc.name])
        b1 b2 b3 b4 b5 b6
      exact ⟨[Event.closeChan ch, Event.removeEntry tc.name] ++ evs,
        by rw [he, List.append_assoc]⟩
    · exact refreshStart_events_extend env store st tc ev b1 b2 b3 b4 b5 b6
  · obtain ⟨evs, he, -⟩ := writeStatus_events_extend env st tc ev b1 b2 b3 b4 b5 b6
    exact ⟨evs, he⟩

theorem refreshPhase_no_refresh (env : Env) (store : Store) (st : CtrlState)
    (tc : FederatedTypeConfig) (ev : List Event) (b1 b2 b3 b4 b5 b6 : Bool)
    (h : b1 = true ∨ b2 = true) :
    (refreshPhase env store st tc ev b1 b2 b3 b4 b5 b6).state = st ∧
    startedSyncChans (refreshPhase env store st tc ev b1 b2 b3 b4 b5 b6).events
      = startedSyncChans ev ∧
    addEntryKeys (refreshPhase env store st tc ev b1 b2 b3 b4 b5 b6).events
      = addEntryKeys ev := by
  have hcond : (!b1 && !b2 && !(tc.observedGeneration == tc.generation)) = false := by
    rcases h with h | h <;> simp [h]
  unfold refreshPhase
  rw [if_neg (by simp [hcond])]
  obtain ⟨evs, he, hsy, -, had⟩ := writeStatus_events_extend env st tc ev b1 b2 b3 b4 b5 b6
  refine ⟨writeStatus_state env st tc ev b1 b2 b3 b4 b5 b6, ?_, ?_⟩
  · rw [he]; simp [hsy]
  · rw [he]; simp [had]

theorem statusPhase_no_refresh (cfg : ControllerConfig) (env : Env) (store : Store)
    (st : CtrlState) (tc : FederatedTypeConfig) (ev : List Event)
    (b1 b2 b3 : Bool) (statusChan : Option Nat)
    (h : b1 = true ∨ b2 = true) :
    mapLookup (statusPhase cfg env store st tc ev b1 b2 b3 statusChan).state.stopChannels tc.name
      = mapLookup st.stopChannels tc.name ∧
    startedSyncChans (statusPhase cfg env store st tc ev b1 b2 b3 statusChan).events
      = startedSyncChans ev := by
  cases statusChan with
  | none =>
    simp only [statusPhase]
    by_cases he : statusControllerEnabledFor cfg tc = true
    · rw [if_pos he]
      by_cases hok : env.statusStartOK = true
      · rw [if_pos hok]
        obtain ⟨hst, hsy, -⟩ := refreshPhase_no_refresh env store
          (addFreshEntry st (tc.name ++ "/status")) tc
          (ev ++ [Event.statusStarted tc.name st.chans.nextId,
                  Event.addEntry (tc.name ++ "/status") st.chans.nextId])
          b1 b2 b3 true false false h
        rw [hst, hsy]
        constructor
        · simp [addFreshEntry, mapLookup_cons_ne _ _ _ _ (Ne.symm (statusKey_ne tc.name))]
        · simp only [startedSyncChans_append]
          simp [startedSyncChans]
      · rw [if_neg hok]
        simp [closeFreshChan, startedSyncChans]
    · rw [if_neg he]
      obtain ⟨hst, hsy, -⟩ := refreshPhase_no_refresh env store st tc ev
        b1 b2 b3 false false false h
      rw [hst, hsy]
      exact ⟨rfl, rfl⟩
  | some ch =>
    simp only [statusPhase]
    by_cases he : statusControllerEnabledFor cfg tc = true
    · rw [if_neg (by simp [he])]
      obtain ⟨hst, hsy, -⟩ := refreshPhase_no_refresh env store st tc ev
        b1 b2 b3 false false true h
      rw [hst, hsy]
      exact ⟨rfl, rfl⟩
    · rw [if_pos (by simp [Bool.of_not_eq_true he])]
      obtain ⟨hst, hsy, -⟩ := refreshPhase_no_refresh env store
        (stopEntry st (tc.name ++ "/status") ch) tc
        (ev ++ [Event.closeChan ch, Event.removeEntry (tc.name ++ "/status")])
        b1 b2 b3 false true true h
      rw [hst, hsy]
      constructor
      · simp [stopEntry, mapLookup_delete_ne _ _ _ (Ne.symm (statusKey_ne tc.name))]
      · simp only [startedSyncChans_append]
        simp [startedSyncChans]

theorem statusPhase_events_extend (cfg : ControllerConfig) (env : Env) (store : Store)
    (st : CtrlState) (tc : FederatedTypeConfig) (ev : List Event)
    (b1 b2 b3 : Bool) (statusChan : Option Nat) :
    ∃ evs, (statusPhase cfg env store st tc ev b1 b2 b3 statusChan).events = ev ++ evs := by
  cases statusChan with
  | none =>
    simp only [statusPhase]
    by_cases he : statusControllerEnabledFor cfg tc = true
    · rw [if_pos he]
      by_cases hok : env.statusStartOK = true
      · rw [if_pos hok]
        obtain ⟨evs, hev⟩ := refreshPhase_events_extend env store
          (addFreshEntry st (tc.name ++ "/status")) tc
          (ev ++ [Event.statusStarted tc.name st.chans.nextId,
                  Event.addEntry (tc.name ++ "/status") st.chans.nextId])
          b1 b2 b3 true false false
        exact ⟨[Event.statusStarted tc.name st.chans.nextId,
          Event.addEntry (tc.name ++ "/status") st.chans.nextId] ++ evs,
          by rw [hev, List.append_assoc]⟩
      · rw [if_neg hok]
        exact ⟨[Event.statusStartFailed (tc.name ++ "/status") st.chans.nextId,
          Event.closeChan st.chans.nextId], rfl⟩
    · rw [if_neg he]
      exact refreshPhase_events_extend env store st tc ev b1 b2 b3 false false false
  | some ch =>
    simp only [statusPhase]
    by_cases he : statusControllerEnabledFor cfg tc = true
    · rw [if_neg (by simp [he])]
      exact refreshPhase_events_extend env store st tc ev b1 b2 b3 false false true
    · rw [if_pos (by simp [Bool.of_not_eq_true he])]
      obtain ⟨evs, hev⟩ := refreshPhase_events_extend env store
        (stopEntry st (tc.name ++ "/status") ch) tc
        (ev ++ [Event.closeChan ch, Event.removeEntry (tc.name ++ "/status")])
        b1 b2 b3 false true true
      exact ⟨[Event.closeChan ch, Event.removeEntry (tc.name ++ "/status")] ++ evs,
        by rw [hev, List.append_assoc]⟩

theorem statusPhase_start (cfg : ControllerConfig) (env : Env) (store : Store)
    (st : CtrlState) (tc : FederatedTypeConfig) (ev : List Event) (b1 b2 b3 : Bool)
    (henabled : statusControllerEnabledFor cfg tc = true)
    (hok : env.statusStartOK = true) :
    mapLookup (statusPhase cfg env store st tc ev b1 b2 b3 none).state.stopChannels
        (tc.name ++ "/status") = some st.chans.nextId ∧
    startedStatusChans (statusPhase cfg env store st tc ev b1 b2 b3 none).events
      = startedStatusChans ev ++ [st.chans.nextId] := by
  simp only [statusPhase]
  rw [if_pos henabled, if_pos hok]
  constructor
  · rw [refreshPhase_statusKey_lookup]
    simp [addFreshEntry, mapLookup_cons_self]
  · rw [refreshPhase_statusStarted]
    simp only [startedStatusChans_append]
    simp [startedStatusChans]

theorem statusPhase_stop (cfg : ControllerConfig) (env : Env) (store : Store)
    (st : CtrlState) (tc : FederatedTypeConfig) (ev : List Event) (b1 b2 b3 : Bool)
    (ch : Nat)
    (henabled : statusControllerEnabledFor cfg tc = false) :
    Event.closeChan ch ∈ (statusPhase cfg env store st tc ev b1 b2 b3 (some ch)).events ∧
    Event.removeEntry (tc.name ++ "/status")
      ∈ (statusPhase cfg env store st tc ev b1 b2 b3 (some ch)).events ∧
    mapLookup (statusPhase cfg env store st tc ev b1 b2 b3 (some ch)).state.stopChannels
        (tc.name ++ "/status") = none ∧
    startedStatusChans (statusPhase cfg env store st tc ev b1 b2 b3 (some ch)).events
      = startedStatusChans ev := by
  simp only [statusPhase]
  rw [if_pos (by simp [henabled])]
  obtain ⟨evs, he⟩ := refreshPhase_events_extend env store
    (stopEntry st (tc.name ++ "/status") ch) tc
    (ev ++ [Event.closeChan ch, Event.removeEntry (tc.name ++ "/status")])
    b1 b2 b3 false true true
  refine ⟨?_, ?_, ?_, ?_⟩
  · rw [he]
    simp
  · rw [he]
    simp
  · rw [refreshPhase_statusKey_lookup]
    simp [stopEntry, mapLookup_delete_self]
  · rw [refreshPhase_statusStarted]
    simp only [startedStatusChans_append]
    simp [startedStatusChans]

/-- Whether the sync-controller step of this reconcile cannot return early
with an error: a start is either not attempted, or will succeed. -/
def syncPhaseOk (env : Env) (store : Store) (st : CtrlState) (tc : FederatedTypeConfig) : Bool :=
  !((mapLookup st.stopChannels tc.name).isNone && tc.propagationEnabled &&
    ((tc.targetNamespaced && !namespaceFTCExists store) || !env.syncStartOK))

theorem normalPrefix_cases (store : Store) (tc : FederatedTypeConfig) :
    normalPrefix store tc = [] ∨
    normalPrefix store tc = [Event.finalizerAdded tc.name] ∨
    normalPrefix store tc
      = [Event.finalizerAdded tc.name] ++ reconcileOnNamespaceFTCUpdate store := by
  unfold normalPrefix
  by_cases hf : hasFinalizer tc = true
  · left
    simp [hf]
  · have hf' : hasFinalizer tc = false := by simpa using hf
    by_cases hn : isNamespace tc = true
    · right; right
      simp [hf', hn]
    · right; left
      simp [hf', hn]

@[simp] theorem startedSyncChans_normalPrefix (store : Store) (tc : FederatedTypeConfig) :
    startedSyncChans (normalPrefix store tc) = [] := by
  rcases normalPrefix_cases store tc with h | h | h <;> rw [h]
  · rfl
  · rfl
  · simp only [startedSyncChans_append, startedSyncChans_enqueues, List.append_nil]
    rfl

@[simp] theorem startedStatusChans_normalPrefix (store : Store) (tc : FederatedTypeConfig) :
    startedStatusChans (normalPrefix store tc) = [] := by
  rcases normalPrefix_cases store tc with h | h | h <;> rw [h]
  · rfl
  · rfl
  · simp only [startedStatusChans_append, startedStatusChans_enqueues, List.append_nil]
    rfl

@[simp] theorem addEntryKeys_normalPrefix (store : Store) (tc : FederatedTypeConfig) :
    addEntryKeys (normalPrefix store tc) = [] := by
  rcases normalPrefix_cases store tc with h | h | h <;> rw [h]
  · rfl
  · rfl
  · simp only [addEntryKeys_append, addEntryKeys_enqueues, List.append_nil]
    rfl

theorem reconcileNormal_eq (cfg : ControllerConfig) (env : Env) (store : Store)
    (st : CtrlState) (tc : FederatedTypeConfig)
    (hfin : hasFinalizer tc = true ∨ env.patchOK = true) :
    reconcileNormal cfg env store st tc
      = syncPhase cfg env store st (withFinalizer tc) (normalPrefix store tc)
          (mapLookup st.stopChannels tc.name)
          (mapLookup st.stopChannels (tc.name ++ "/status")) := by
  unfold reconcileNormal
  rcases hfin with hf | hp
  · rw [if_neg (by simp [hf])]
  · rw [if_neg (by simp [hp])]

theorem syncPhase_start_sync (cfg : ControllerConfig) (env : Env) (store : Store)
    (st : CtrlState) (tc : FederatedTypeConfig) (ev0 : List Event) (statusChan : Option Nat)
    (hsy0 : startedSyncChans ev0 = [])
    (hp : tc.propagationEnabled = true)
    (hns : tc.targetNamespaced = true → namespaceFTCExists store = true)
    (hok : env.syncStartOK = true) :
    startedSyncChans (syncPhase cfg env store st tc ev0 none statusChan).events
      = [st.chans.nextId] ∧
    mapLookup (syncPhase cfg env store st tc ev0 none statusChan).state.stopChannels tc.name
      = some st.chans.nextId := by
  have hcond : (tc.targetNamespaced && !namespaceFTCExists store) = false := by
    cases h : tc.targetNamespaced
    · rfl
    · simp [hns h]
  simp only [syncPhase]
  rw [if_pos hp, if_neg (by simp [hcond]), if_pos hok]
  obtain ⟨hl, hs⟩ := statusPhase_no_refresh cfg env store (addFreshEntry st tc.name) tc
    (ev0 ++ [Event.syncStarted tc.name st.chans.nextId, Event.addEntry tc.name st.chans.nextId])
    true false false statusChan (Or.inl rfl)
  constructor
  · rw [hs]
    simp only [startedSyncChans_append, hsy0]
    simp [startedSyncChans]
  · rw [hl]
    simp [addFreshEntry, mapLookup_cons_self]

theorem syncPhase_stop_sync (cfg : ControllerConfig) (env : Env) (store : Store)
    (st : CtrlState) (tc : FederatedTypeConfig) (ev0 : List Event) (statusChan : Option Nat)
    (ch : Nat)
    (hsy0 : startedSyncChans ev0 = [])
    (hstop : tc.propagationEnabled = false
      ∨ (tc.targetNamespaced = true ∧ namespaceFTCExists store = false)) :
    Event.closeChan ch ∈ (syncPhase cfg env store st tc ev0 (some ch) statusChan).events ∧
    Event.removeEntry tc.name ∈ (syncPhase cfg env store st tc ev0 (some ch) statusChan).events ∧
    mapLookup (syncPhase cfg env store st tc ev0 (some ch) statusChan).state.stopChannels tc.name
      = none ∧
    startedSyncChans (syncPhase cfg env store st tc ev0 (some ch) statusChan).events = [] := by
  have hcond : (!tc.propagationEnabled
      || (tc.targetNamespaced && !namespaceFTCExists store)) = true := by
    rcases hstop with h | ⟨h1, h2⟩
    · simp [h]
    · simp [h1, h2]
  simp only [syncPhase]
  rw [if_pos hcond]
  obtain ⟨hl, hs⟩ := statusPhase_no_refresh cfg env store (stopEntry st tc.name ch) tc
    (ev0 ++ [Event.closeChan ch, Event.removeEntry tc.name])
    false true true statusChan (Or.inr rfl)
  obtain ⟨evs, hev⟩ := statusPhase_events_extend cfg env store (stopEntry st tc.name ch) tc
    (ev0 ++ [Event.closeChan ch, Event.removeEntry tc.name])
    false true true statusChan
  refine ⟨?_, ?_, ?_, ?_⟩
  · rw [hev]; simp
  · rw [hev]; simp
  · rw [hl]
    simp [stopEntry, mapLookup_delete_self]
  · rw [hs]
    simp only [startedSyncChans_append, hsy0]
    simp [startedSyncChans]

theorem syncPhase_start_status (cfg : ControllerConfig) (env : Env) (store : Store)
    (st : CtrlState) (tc : FederatedTypeConfig) (ev0 : List Event) (syncChan : Option Nat)
    (hst0 : startedStatusChans ev0 = [])
    (hchan : syncChan = mapLookup st.stopChannels tc.name)
    (hso : syncPhaseOk env store st tc = true)
    (henabled : statusControllerEnabledFor cfg tc = true)
    (hok : env.statusStartOK = true) :
    ∃ ch, startedStatusChans (syncPhase cfg env store st tc ev0 syncChan none).events = [ch] ∧
      mapLookup (syncPhase cfg env store st tc ev0 syncChan none).state.stopChannels
        (tc.name ++ "/status") = some ch := by
  cases hc : syncChan with
  | none =>
    simp only [syncPhase]
    by_cases hp : tc.propagationEnabled = true
    · have hnoerr : (tc.targetNamespaced && !namespaceFTCExists store) = false
          ∧ env.syncStartOK = true := by
        have h2 := hso
        unfold syncPhaseOk at h2
        rw [← hchan, hc] at h2
        simp [hp] at h2
        refine ⟨?_, h2.2⟩
        rcases h2.1 with h | h
        · simp [h]
        · simp [h]
      rw [if_pos hp, if_neg (by simp [hnoerr.1]), if_pos hnoerr.2]
      obtain ⟨hl, hs⟩ := statusPhase_start cfg env store (addFreshEntry st tc.name) tc
        (ev0 ++ [Event.syncStarted tc.name st.chans.nextId, Event.addEntry tc.name st.chans.nextId])
        true false false henabled hok
      refine ⟨(addFreshEntry st tc.name).chans.nextId, ?_, hl⟩
      rw [hs]
      simp only [startedStatusChans_append, hst0]
      simp [startedStatusChans]
    · rw [if_neg hp]
      obtain ⟨hl, hs⟩ := statusPhase_start cfg env store st tc ev0
        false false false henabled hok
      exact ⟨st.chans.nextId, by rw [hs, hst0]; simp, hl⟩
  | some ch0 =>
    simp only [syncPhase]
    by_cases hstop : (!tc.propagationEnabled
        || (tc.targetNamespaced && !namespaceFTCExists store)) = true
    · rw [if_pos hstop]
      obtain ⟨hl, hs⟩ := statusPhase_start cfg env store (stopEntry st tc.name ch0) tc
        (ev0 ++ [Event.closeChan ch0, Event.removeEntry tc.name])
        false true true henabled hok
      refine ⟨(stopEntry st tc.name ch0).chans.nextId, ?_, hl⟩
      rw [hs]
      simp only [startedStatusChans_append, hst0]
      simp [startedStatusChans]
    · rw [if_neg hstop]
      obtain ⟨hl, hs⟩ := statusPhase_start cfg env store st tc ev0
        false false true henabled hok
      exact ⟨st.chans.nextId, by rw [hs, hst0]; simp, hl⟩

theorem syncPhase_stop_status (cfg : ControllerConfig) (env : Env) (store : Store)
    (st : CtrlState) (tc : FederatedTypeConfig) (ev0 : List Event) (syncChan : Option Nat)
    (ch : Nat)
    (hst0 : startedStatusChans ev0 = [])
    (hchan : syncChan = mapLookup st.stopChannels tc.name)
    (hso : syncPhaseOk env store st tc = true)
    (henabled : statusControllerEnabledFor cfg tc = false) :
    Event.closeChan ch ∈ (syncPhase cfg env store st tc ev0 syncChan (some ch)).events ∧
    Event.removeEntry (tc.name ++ "/status")
      ∈ (syncPhase cfg env store st tc ev0 syncChan (some ch)).events ∧
    mapLookup (syncPhase cfg env store st tc ev0 syncChan (some ch)).state.stopChannels
      (tc.name ++ "/status") = none ∧
    startedStatusChans (syncPhase cfg env store st tc ev0 syncChan (some ch)).events = [] := by
  cases hc : syncChan with
  | none =>
    simp only [syncPhase]
    by_cases hp : tc.propagationEnabled = true
    · have hnoerr : (tc.targetNamespaced && !namespaceFTCExists store) = false
          ∧ env.syncStartOK = true := by
        have h2 := hso
        unfold syncPhaseOk at h2
        rw [← hchan, hc] at h2
        simp [hp] at h2
        refine ⟨?_, h2.2⟩
        rcases h2.1 with h | h
        · simp [h]
        · simp [h]
      rw [if_pos hp, if_neg (by simp [hnoerr.1]), if_pos hnoerr.2]
      obtain ⟨h1, h2, h3, h4⟩ := statusPhase_stop cfg env store (addFreshEntry st tc.name) tc
        (ev0 ++ [Event.syncStarted tc.name st.chans.nextId, Event.addEntry tc.name st.chans.nextId])
        true false false ch henabled
      refine ⟨h1, h2, h3, ?_⟩
      rw [h4]
      simp only [startedStatusChans_append, hst0]
      simp [startedStatusChans]
    · rw [if_neg hp]
      obtain ⟨h1, h2, h3, h4⟩ := statusPhase_stop cfg env store st tc ev0
        false false false ch henabled
      exact ⟨h1, h2, h3, by rw [h4, hst0]⟩
  | some ch0 =>
    simp only [syncPhase]
    by_cases hstop : (!tc.propagationEnabled
        || (tc.targetNamespaced && !namespaceFTCExists store)) = true
    · rw [if_pos hstop]
      obtain ⟨h1, h2, h3, h4⟩ := statusPhase_stop cfg env store (stopEntry st tc.name ch0) tc
        (ev0 ++ [Event.closeChan ch0, Event.removeEntry tc.name])
        false true true ch henabled
      refine ⟨h1, h2, h3, ?_⟩
      rw [h4]
      simp only [startedStatusChans_append, hst0]
      simp [startedStatusChans]
    · rw [if_neg hstop]
      obtain ⟨h1, h2, h3, h4⟩ := statusPhase_stop cfg env store st tc ev0
        false false true ch henabled
      exact ⟨h1, h2, h3, by rw [h4, hst0]⟩

@[simp] theorem finalizerRemoved_not_mem_enqueues (store : Store) (n : String) :
    Event.finalizerRemoved n ∉ reconcileOnNamespaceFTCUpdate store := by
  simp [reconcileOnNamespaceFTCUpdate]

theorem getLast?_append_singleton (l : List Event) (a : Event) :
    (l ++ [a]).getLast? = some a := by
  rw [List.getLast?_append_cons]
  rfl

theorem getLast?_cons_append_singleton (e : Event) (l : List Event) (a : Event) :
    (e :: (l ++ [a])).getLast? = some a := by
  rw [show e :: (l ++ [a]) = (e :: l) ++ [a] from rfl]
  exact getLast?_append_singleton _ _

theorem getLast?_cons_cons_append_singleton (e1 e2 : Event) (l : List Event) (a : Event) :
    (e1 :: e2 :: (l ++ [a])).getLast? = some a := by
  rw [show e1 :: e2 :: (l ++ [a]) = (e1 :: e2 :: l) ++ [a] from rfl]
  exact getLast?_append_singleton _ _

theorem refreshPhase_refresh (env : Env) (store : Store) (st : CtrlState)
    (tc : FederatedTypeConfig) (ev : List Event) (b3 b4 b5 b6 : Bool)
    (hgen : ¬(tc.observedGeneration = tc.generation))
    (hns : tc.targetNamespaced = true → namespaceFTCExists store = true)
    (hok : env.syncStartOK = true)
    (hsy : startedSyncChans ev = []) :
    (startedSyncChans (refreshPhase env store st tc ev false false b3 b4 b5 b6).events
        = [st.chans.nextId] ∧
      mapLookup (refreshPhase env store st tc ev false false b3 b4 b5 b6).state.stopChannels
        tc.name = some st.chans.nextId) ∧
    (∀ ch0, mapLookup st.stopChannels tc.name = some ch0 →
      Event.closeChan ch0 ∈ (refreshPhase env store st tc ev false false b3 b4 b5 b6).events ∧
      Event.removeEntry tc.name
        ∈ (refreshPhase env store st tc ev false false b3 b4 b5 b6).events) := by
  have hcond : (tc.targetNamespaced && !namespaceFTCExists store) = false := by
    cases h : tc.targetNamespaced
    · rfl
    · simp [hns h]
  have hgenb : (!(false : Bool) && !(false : Bool)
      && !(tc.observedGeneration == tc.generation)) = true := by
    simp [hgen]
  unfold refreshPhase
  rw [if_pos hgenb]
  split
  · rename_i ch heq
    unfold refreshStart
    rw [if_neg (by simp [hcond]), if_pos hok]
    obtain ⟨evs, hev, hevsy, -, -⟩ := writeStatus_events_extend env
      (addFreshEntry (stopEntry st tc.name ch) tc.name) tc
      ((ev ++ [Event.closeChan ch, Event.removeEntry tc.name])
        ++ [Event.syncStarted tc.name (stopEntry st tc.name ch).chans.nextId,
            Event.addEntry tc.name (stopEntry st tc.name ch).chans.nextId])
      false false b3 b4 b5 b6
    refine ⟨⟨?_, ?_⟩, ?_⟩
    · rw [hev]
      simp only [startedSyncChans_append, hsy, List.append_nil, List.nil_append, hevsy]
      simp [startedSyncChans, stopEntry]
    · rw [writeStatus_state]
      simp [addFreshEntry, mapLookup_cons_self, stopEntry]
    · intro ch0 h0
      rw [heq] at h0
      cases h0
      constructor
      · rw [hev]; simp
      · rw [hev]; simp
  · rename_i heq
    unfold refreshStart
    rw [if_neg (by simp [hcond]), if_pos hok]
    obtain ⟨evs, hev, hevsy, -, -⟩ := writeStatus_events_extend env
      (addFreshEntry st tc.name) tc
      (ev ++ [Event.syncStarted tc.name st.chans.nextId, Event.addEntry tc.name st.chans.nextId])
      false false b3 b4 b5 b6
    refine ⟨⟨?_, ?_⟩, ?_⟩
    · rw [hev]
      simp only [startedSyncChans_append, hsy, hevsy, List.append_nil, List.nil_append]
      simp [startedSyncChans]
    · rw [writeStatus_state]
      simp [addFreshEntry, mapLookup_cons_self]
    · intro ch0 h0
      rw [heq] at h0
      cases h0

theorem statusPhase_refresh (cfg : ControllerConfig) (env : Env) (store : Store)
    (st : CtrlState) (tc : FederatedTypeConfig) (ev0 : List Event) (b3 : Bool)
    (statusChan : Option Nat)
    (hgen : ¬(tc.observedGeneration = tc.generation))
    (hns : tc.targetNamespaced = true → namespaceFTCExists store = true)
    (hok : env.syncStartOK = true)
    (hstat : statusChan = none → statusControllerEnabledFor cfg tc = true →
      env.statusStartOK = true)
    (hsy0 : startedSyncChans ev0 = []) :
    (∃ ch, startedSyncChans
        (statusPhase cfg env store st tc ev0 false false b3 statusChan).events = [ch] ∧
      mapLookup (statusPhase cfg env store st tc ev0 false false b3 statusChan).state.stopChannels
        tc.name = some ch) ∧
    (∀ ch0, mapLookup st.stopChannels tc.name = some ch0 →
      Event.closeChan ch0 ∈ (statusPhase cfg env store st tc ev0 false false b3 statusChan).events ∧
      Event.removeEntry tc.name
        ∈ (statusPhase cfg env store st tc ev0 false false b3 statusChan).events) := by
  cases statusChan with
  | none =>
    simp only [statusPhase]
    by_cases he : statusControllerEnabledFor cfg tc = true
    · rw [if_pos he, if_pos (hstat rfl he)]
      have h := refreshPhase_refresh env store (addFreshEntry st (tc.name ++ "/status")) tc
        (ev0 ++ [Event.statusStarted tc.name st.chans.nextId,
                 Event.addEntry (tc.name ++ "/status") st.chans.nextId])
        b3 true false false hgen hns hok
        (by simp only [startedSyncChans_append, hsy0]; simp [startedSyncChans])
      refine ⟨⟨(addFreshEntry st (tc.name ++ "/status")).chans.nextId, h.1.1, h.1.2⟩, ?_⟩
      intro ch0 h0
      refine h.2 ch0 ?_
      simpa [addFreshEntry, mapLookup_cons_ne _ _ _ _ (Ne.symm (statusKey_ne tc.name))] using h0
    · rw [if_neg he]
      have h := refreshPhase_refresh env store st tc ev0 b3 false false false
        hgen hns hok hsy0
      exact ⟨⟨st.chans.nextId, h.1.1, h.1.2⟩, h.2⟩
  | some ch =>
    simp only [statusPhase]
    by_cases he : statusControllerEnabledFor cfg tc = true
    · rw [if_neg (by simp [he])]
      have h := refreshPhase_refresh env store st tc ev0 b3 false false true
        hgen hns hok hsy0
      exact ⟨⟨st.chans.nextId, h.1.1, h.1.2⟩, h.2⟩
    · rw [if_pos (by simp [Bool.of_not_eq_true he])]
      have h := refreshPhase_refresh env store (stopEntry st (tc.name ++ "/status") ch) tc
        (ev0 ++ [Event.closeChan ch, Event.removeEntry (tc.name ++ "/status")])
        b3 false true true hgen hns hok
        (by simp only [startedSyncChans_append, hsy0]; simp [startedSyncChans])
      refine ⟨⟨(stopEntry st (tc.name ++ "/status") ch).chans.nextId, h.1.1, h.1.2⟩, ?_⟩
      intro ch0 h0
      refine h.2 ch0 ?_
      simpa [stopEntry, mapLookup_delete_ne _ _ _ (Ne.symm (statusKey_ne tc.name))] using h0

theorem enqueue_mem_reconcileOnNamespaceFTCUpdate (store : Store) (tc2 : FederatedTypeConfig)
    (h : tc2 ∈ store.items) (hn : tc2.targetNamespaced = true) (hns : isNamespace tc2 = false) :
    Event.enqueue tc2.name ∈ reconcileOnNamespaceFTCUpdate store := by
  simp only [reconcileOnNamespaceFTCUpdate, List.mem_map]
  exact ⟨tc2, List.mem_filter.mpr ⟨h, by simp [hn, hns]⟩, rfl⟩

theorem syncPhase_events_extend (cfg : ControllerConfig) (env : Env) (store : Store)
    (st : CtrlState) (tc : FederatedTypeConfig) (ev : List Event)
    (syncChan statusChan : Option Nat) :
    ∃ evs, (syncPhase cfg env store st tc ev syncChan statusChan).events = ev ++ evs := by
  cases syncChan with
  | none =>
    simp only [syncPhase]
    by_cases hp : tc.propagationEnabled = true
    · rw [if_pos hp]
      by_cases hns : (tc.targetNamespaced && !namespaceFTCExists store) = true
      · rw [if_pos hns]
        exact ⟨[], by simp⟩
      · rw [if_neg hns]
        by_cases hok : env.syncStartOK = true
        · rw [if_pos hok]
          obtain ⟨evs, hev⟩ := statusPhase_events_extend cfg env store
            (addFreshEntry st tc.name) tc
            (ev ++ [Event.syncStarted tc.name st.chans.nextId,
                    Event.addEntry tc.name st.chans.nextId])
            true false false statusChan
          exact ⟨[Event.syncStarted tc.name st.chans.nextId,
            Event.addEntry tc.name st.chans.nextId] ++ evs, by rw [hev, List.append_assoc]⟩
        · rw [if_neg hok]
          exact ⟨[Event.syncStartFailed tc.name st.chans.nextId,
            Event.closeChan st.chans.nextId], rfl⟩
    · rw [if_neg hp]
      exact statusPhase_events_extend cfg env store st tc ev false false false statusChan
  | some ch =>
    simp only [syncPhase]
    by_cases hstop : ((!tc.propagationEnabled)
        || (tc.targetNamespaced && !namespaceFTCExists store)) = true
    · rw [if_pos hstop]
      obtain ⟨evs, hev⟩ := statusPhase_events_extend cfg env store
        (stopEntry st tc.name ch) tc
        (ev ++ [Event.closeChan ch, Event.removeEntry tc.name])
        false true true statusChan
      exact ⟨[Event.closeChan ch, Event.removeEntry tc.name] ++ evs,
        by rw [hev, List.append_assoc]⟩
    · rw [if_neg hstop]
      exact statusPhase_events_extend cfg env store st tc ev false false true statusChan

theorem reconcileDeleted_mem_enqueues (env : Env) (store : Store) (st : CtrlState)
    (tc : FederatedTypeConfig) (e : Event)
    (hn : isNamespace tc = true)
    (he : e ∈ reconcileOnNamespaceFTCUpdate store) :
    e ∈ (reconcileDeleted env store st tc).events := by
  unfold reconcileDeleted
  by_cases hf : hasFinalizer tc = true
  · by_cases hp : env.patchOK = true
    · simp [hf, hp, hn, he]
    · simp [hf, hp, hn, he]
  · simp [hf, hn, he]

/-- Replay a trace of events over a name-to-channel map. -/
def replayMap (m : List (String × Nat)) (evs : List Event) : List (String × Nat) :=
  evs.foldl applyEvent m

@[simp] theorem replayMap_nil (m : List (String × Nat)) : replayMap m [] = m := rfl

@[simp] theorem replayMap_cons (m : List (String × Nat)) (e : Event) (evs : List Event) :
    replayMap m (e :: evs) = replayMap (applyEvent m e) evs := rfl

theorem replayMap_append (m : List (String × Nat)) (a b : List Event) :
    replayMap m (a ++ b) = replayMap (replayMap m a) b := by
  simp [replayMap, List.foldl_append]

theorem addsOnlyWhenAbsent_append (m : List (String × Nat)) (a b : List Event) :
    addsOnlyWhenAbsent m (a ++ b)
      = (addsOnlyWhenAbsent m a && addsOnlyWhenAbsent (replayMap m a) b) := by
  induction a generalizing m with
  | nil => simp [addsOnlyWhenAbsent]
  | cons e a ih =>
    simp [addsOnlyWhenAbsent, ih, Bool.and_assoc]

/-- Events that do not touch the map. -/
def mapNeutral (evs : List Event) : Bool :=
  evs.all (fun e => match e with
    | Event.addEntry _ _ => false
    | Event.holderChan _ _ => false
    | Event.removeEntry _ => false
    | _ => true)

theorem addsOnlyWhenAbsent_of_mapNeutral (m : List (String × Nat)) (evs : List Event)
    (h : mapNeutral evs = true) : addsOnlyWhenAbsent m evs = true := by
  induction evs generalizing m with
  | nil => rfl
  | cons e evs ih =>
    simp only [mapNeutral, List.all_cons, Bool.and_eq_true] at h
    cases e <;> simp_all [addsOnlyWhenAbsent, applyEvent, mapNeutral]

theorem replayMap_of_mapNeutral (m : List (String × Nat)) (evs : List Event)
    (h : mapNeutral evs = true) : replayMap m evs = m := by
  induction evs generalizing m with
  | nil => rfl
  | cons e evs ih =>
    simp only [mapNeutral, List.all_cons, Bool.and_eq_true] at h
    cases e <;> simp_all [replayMap, applyEvent, mapNeutral]

theorem mapNeutral_enqueues (store : Store) :
    mapNeutral (reconcileOnNamespaceFTCUpdate store) = true := by
  simp only [mapNeutral, List.all_eq_true]
  intro e hmem
  obtain ⟨tc2, -, rfl⟩ := List.mem_map.mp hmem
  rfl

theorem mapNeutral_append (a b : List Event) :
    mapNeutral (a ++ b) = (mapNeutral a && mapNeutral b) := by
  simp [mapNeutral]

theorem mapNeutral_normalPrefix (store : Store) (tc : FederatedTypeConfig) :
    mapNeutral (normalPrefix store tc) = true := by
  rcases normalPrefix_cases store tc with h | h | h <;> rw [h]
  · rfl
  · rfl
  · rw [mapNeutral_append, mapNeutral_enqueues store]
    rfl

theorem nodup_replay (m : List (String × Nat)) (evs : List Event)
    (hnodup : (mapKeys m).Nodup) (h : addsOnlyWhenAbsent m evs = true) :
    (mapKeys (replayMap m evs)).Nodup := by
  induction evs generalizing m with
  | nil => exact hnodup
  | cons e evs ih =>
    simp only [addsOnlyWhenAbsent, Bool.and_eq_true] at h
    refine ih (applyEvent m e) ?_ h.2
    cases e with
    | addEntry k ch =>
      have : mapLookup m k = none := by
        have := h.1
        simpa using this
      exact nodup_mapKeys_cons m k ch hnodup this
    | holderChan k ch =>
      have : mapLookup m k = none := by
        have := h.1
        simpa using this
      exact nodup_mapKeys_cons m k ch hnodup this
    | removeEntry k => exact nodup_mapKeys_delete m k hnodup
    | closeChan ch => exact hnodup
    | syncStarted n ch => exact hnodup
    | syncStartFailed n ch => exact hnodup
    | statusStarted n ch => exact hnodup
    | statusStartFailed k ch => exact hnodup
    | enqueue n => exact hnodup
    | finalizerAdded n => exact hnodup
    | finalizerRemoved n => exact hnodup
    | statusUpdate tc => exact hnodup

theorem writeStatus_replay (env : Env) (st : CtrlState) (tc : FederatedTypeConfig)
    (ev : List Event) (b1 b2 b3 b4 b5 b6 : Bool) :
    ∃ evs, (writeStatus env st tc ev b1 b2 b3 b4 b5 b6).events = ev ++ evs ∧
      addsOnlyWhenAbsent st.stopChannels evs = true ∧
      (writeStatus env st tc ev b1 b2 b3 b4 b5 b6).state.stopChannels
        = replayMap st.stopChannels evs := by
  unfold writeStatus
  split
  · exact ⟨_, rfl, rfl, rfl⟩
  · exact ⟨[], by simp, rfl, rfl⟩

theorem refreshStart_replay (env : Env) (store : Store) (st : CtrlState)
    (tc : FederatedTypeConfig) (ev : List Event) (b1 b2 b3 b4 b5 b6 : Bool)
    (habs : mapLookup st.stopChannels tc.name = none) :
    ∃ evs, (refreshStart env store st tc ev b1 b2 b3 b4 b5 b6).events = ev ++ evs ∧
      addsOnlyWhenAbsent st.stopChannels evs = true ∧
      (refreshStart env store st tc ev b1 b2 b3 b4 b5 b6).state.stopChannels
        = replayMap st.stopChannels evs := by
  unfold refreshStart
  split
  · exact ⟨[], by simp, rfl, rfl⟩
  · split
    · obtain ⟨evs, hev, hadds, hst⟩ := writeStatus_replay env
        (addFreshEntry st tc.name) tc
        (ev ++ [Event.syncStarted tc.name st.chans.nextId, Event.addEntry tc.name st.chans.nextId])
        b1 b2 b3 b4 b5 b6
      refine ⟨[Event.syncStarted tc.name st.chans.nextId,
        Event.addEntry tc.name st.chans.nextId] ++ evs,
        by rw [hev, List.append_assoc], ?_, ?_⟩
      · rw [addsOnlyWhenAbsent_append]
        have h1 : addsOnlyWhenAbsent st.stopChannels
            [Event.syncStarted tc.name st.chans.nextId,
             Event.addEntry tc.name st.chans.nextId] = true := by
          simp [addsOnlyWhenAbsent, applyEvent, habs]
        rw [h1]
        have h2 : replayMap st.stopChannels
            [Event.syncStarted tc.name st.chans.nextId,
             Event.addEntry tc.name st.chans.nextId]
            = (addFreshEntry st tc.name).stopChannels := by
          simp [replayMap, applyEvent, addFreshEntry]
        rw [h2]
        simpa using hadds
      · rw [hst, replayMap_append]
        rfl
    · exact ⟨[Event.syncStartFailed tc.name st.chans.nextId,
        Event.closeChan st.chans.nextId], rfl, by simp [addsOnlyWhenAbsent, applyEvent], rfl⟩

theorem refreshPhase_replay (env : Env) (store : Store) (st : CtrlState)
    (tc : FederatedTypeConfig) (ev : List Event) (b1 b2 b3 b4 b5 b6 : Bool) :
    ∃ evs, (refreshPhase env store st tc ev b1 b2 b3 b4 b5 b6).events = ev ++ evs ∧
      addsOnlyWhenAbsent st.stopChannels evs = true ∧
      (refreshPhase env store st tc ev b1 b2 b3 b4 b5 b6).state.stopChannels
        = replayMap st.stopChannels evs := by
  unfold refreshPhase
  split
  · split
    · rename_i ch heq
      obtain ⟨evs, hev, hadds, hst⟩ := refreshStart_replay env store
        (stopEntry st tc.name ch) tc
        (ev ++ [Event.closeChan ch, Event.removeEntry tc.name]) b1 b2 b3 b4 b5 b6
        (by simp [stopEntry, mapLookup_delete_self])
      refine ⟨[Event.closeChan ch, Event.removeEntry tc.name] ++ evs,
        by rw [hev, List.append_assoc], ?_, ?_⟩
      · rw [addsOnlyWhenAbsent_append]
        have h1 : addsOnlyWhenAbsent st.stopChannels
            [Event.closeChan ch, Event.removeEntry tc.name] = true := by
          simp [addsOnlyWhenAbsent, applyEvent]
        have h2 : replayMap st.stopChannels [Event.closeChan ch, Event.removeEntry tc.name]
            = (stopEntry st tc.name ch).stopChannels := by
          simp [replayMap, applyEvent, stopEntry]
        rw [h1, h2]
        simpa using hadds
      · rw [hst, replayMap_append]
        rfl
    · rename_i heq
      exact refreshStart_replay env store st tc ev b1 b2 b3 b4 b5 b6 heq
  · exact writeStatus_replay env st tc ev b1 b2 b3 b4 b5 b6

theorem statusPhase_replay (cfg : ControllerConfig) (env : Env) (store : Store)
    (st : CtrlState) (tc : FederatedTypeConfig) (ev : List Event)
    (b1 b2 b3 : Bool) (statusChan : Option Nat)
    (hchan : statusChan = mapLookup st.stopChannels (tc.name ++ "/status")) :
    ∃ evs, (statusPhase cfg env store st tc ev b1 b2 b3 statusChan).events = ev ++ evs ∧
      addsOnlyWhenAbsent st.stopChannels evs = true ∧
      (statusPhase cfg env store st tc ev b1 b2 b3 statusChan).state.stopChannels
        = replayMap st.stopChannels evs := by
  cases statusChan with
  | none =>
    simp only [statusPhase]
    by_cases he : statusControllerEnabledFor cfg tc = true
    · rw [if_pos he]
      by_cases hok : env.statusStartOK = true
      · rw [if_pos hok]
        obtain ⟨evs, hev, hadds, hst⟩ := refreshPhase_replay env store
          (addFreshEntry st (tc.name ++ "/status")) tc
          (ev ++ [Event.statusStarted tc.name st.chans.nextId,
                  Event.addEntry (tc.name ++ "/status") st.chans.nextId]) b1 b2 b3 true false false
        refine ⟨[Event.statusStarted tc.name st.chans.nextId,
          Event.addEntry (tc.name ++ "/status") st.chans.nextId] ++ evs,
          by rw [hev, List.append_assoc], ?_, ?_⟩
        · rw [addsOnlyWhenAbsent_append]
          have h1 : addsOnlyWhenAbsent st.stopChannels
              [Event.statusStarted tc.name st.chans.nextId,
               Event.addEntry (tc.name ++ "/status") st.chans.nextId] = true := by
            simp [addsOnlyWhenAbsent, applyEvent, hchan.symm]
          have h2 : replayMap st.stopChannels
              [Event.statusStarted tc.name st.chans.nextId,
               Event.addEntry (tc.name ++ "/status") st.chans.nextId]
              = (addFreshEntry st (tc.name ++ "/status")).stopChannels := by
            simp [replayMap, applyEvent, addFreshEntry]
          rw [h1, h2]
          simpa using hadds
        · rw [hst, replayMap_append]
          rfl
      · rw [if_neg hok]
        exact ⟨[Event.statusStartFailed (tc.name ++ "/status") st.chans.nextId,
          Event.closeChan st.chans.nextId], rfl, by simp [addsOnlyWhenAbsent, applyEvent], rfl⟩
    · rw [if_neg he]
      exact refreshPhase_replay env store st tc ev b1 b2 b3 false false false
  | some ch =>
    simp only [statusPhase]
    by_cases he : statusControllerEnabledFor cfg tc = true
    · rw [if_neg (by simp [he])]
      exact refreshPhase_replay env store st tc ev b1 b2 b3 false false true
    · rw [if_pos (by simp [Bool.of_not_eq_true he])]
      obtain ⟨evs, hev, hadds, hst⟩ := refreshPhase_replay env store
        (stopEntry st (tc.name ++ "/status") ch) tc
        (ev ++ [Event.closeChan ch, Event.removeEntry (tc.name ++ "/status")]) b1 b2 b3 false true true
      refine ⟨[Event.closeChan ch, Event.removeEntry (tc.name ++ "/status")] ++ evs,
        by rw [hev, List.append_assoc], ?_, ?_⟩
      · rw [addsOnlyWhenAbsent_append]
        have h1 : addsOnlyWhenAbsent st.stopChannels
            [Event.closeChan ch, Event.removeEntry (tc.name ++ "/status")] = true := by
          simp [addsOnlyWhenAbsent, applyEvent]
        have h2 : replayMap st.stopChannels
            [Event.closeChan ch, Event.removeEntry (tc.name ++ "/status")]
            = (stopEntry st (tc.name ++ "/status") ch).stopChannels := by
          simp [replayMap, applyEvent, stopEntry]
        rw [h1, h2]
        simpa using hadds
      · rw [hst, replayMap_append]
        rfl

theorem syncPhase_replay (cfg : ControllerConfig) (env : Env) (store : Store)
    (st : CtrlState) (tc : FederatedTypeConfig) (ev : List Event)
    (syncChan statusChan : Option Nat)
    (hsync : syncChan = mapLookup st.stopChannels tc.name)
    (hstat : statusChan = mapLookup st.stopChannels (tc.name ++ "/status")) :
    ∃ evs, (syncPhase cfg env store st tc ev syncChan statusChan).events = ev ++ evs ∧
      addsOnlyWhenAbsent st.stopChannels evs = true ∧
      (syncPhase cfg env store st tc ev syncChan statusChan).state.stopChannels
        = replayMap st.stopChannels evs := by
  cases syncChan with
  | none =>
    simp only [syncPhase]
    by_cases hp : tc.propagationEnabled = true
    · rw [if_pos hp]
      by_cases hns : (tc.targetNamespaced && !namespaceFTCExists store) = true
      · rw [if_pos hns]
        exact ⟨[], by simp, rfl, rfl⟩
      · rw [if_neg hns]
        by_cases hok : env.syncStartOK = true
        · rw [if_pos hok]
          obtain ⟨evs, hev, hadds, hst⟩ := statusPhase_replay cfg env store
            (addFreshEntry st tc.name) tc
            (ev ++ [Event.syncStarted tc.name st.chans.nextId,
                    Event.addEntry tc.name st.chans.nextId]) true false false statusChan
            (by rw [hstat]
                simp only [addFreshEntry]
                exact (mapLookup_cons_ne st.stopChannels tc.name (tc.name ++ "/status")
                  st.chans.nextId (statusKey_ne tc.name)).symm)
          refine ⟨[Event.syncStarted tc.name st.chans.nextId,
            Event.addEntry tc.name st.chans.nextId] ++ evs,
            by rw [hev, List.append_assoc], ?_, ?_⟩
          · rw [addsOnlyWhenAbsent_append]
            have h1 : addsOnlyWhenAbsent st.stopChannels
                [Event.syncStarted tc.name st.chans.nextId,
                 Event.addEntry tc.name st.chans.nextId] = true := by
              simp [addsOnlyWhenAbsent, applyEvent, hsync.symm]
            have h2 : replayMap st.stopChannels
                [Event.syncStarted tc.name st.chans.nextId,
                 Event.addEntry tc.name st.chans.nextId]
                = (addFreshEntry st tc.name).stopChannels := by
              simp [replayMap, applyEvent, addFreshEntry]
            rw [h1, h2]
            simpa using hadds
          · rw [hst, replayMap_append]
            rfl
        · rw [if_neg hok]
          exact ⟨[Event.syncStartFailed tc.name st.chans.nextId,
            Event.closeChan st.chans.nextId], rfl, by simp [addsOnlyWhenAbsent, applyEvent], rfl⟩
    · rw [if_neg hp]
      exact statusPhase_replay cfg env store st tc ev false false false statusChan hstat
  | some ch =>
    simp only [syncPhase]
    by_cases hstop : ((!tc.propagationEnabled)
        || (tc.targetNamespaced && !namespaceFTCExists store)) = true
    · rw [if_pos hstop]
      obtain ⟨evs, hev, hadds, hst⟩ := statusPhase_replay cfg env store
        (stopEntry st tc.name ch) tc
        (ev ++ [Event.closeChan ch, Event.removeEntry tc.name]) false true true statusChan
        (by rw [hstat]
            simp only [stopEntry]
            exact (mapLookup_delete_ne st.stopChannels tc.name (tc.name ++ "/status")
              (statusKey_ne tc.name)).symm)
      refine ⟨[Event.closeChan ch, Event.removeEntry tc.name] ++ evs,
        by rw [hev, List.append_assoc], ?_, ?_⟩
      · rw [addsOnlyWhenAbsent_append]
        have h1 : addsOnlyWhenAbsent st.stopChannels
            [Event.closeChan ch, Event.removeEntry tc.name] = true := by
          simp [addsOnlyWhenAbsent, applyEvent]
        have h2 : replayMap st.stopChannels [Event.closeChan ch, Event.removeEntry tc.name]
            = (stopEntry st tc.name ch).stopChannels := by
          simp [replayMap, applyEvent, stopEntry]
        rw [h1, h2]
        simpa using hadds
      · rw [hst, replayMap_append]
        rfl
    · rw [if_neg hstop]
      exact statusPhase_replay cfg env store st tc ev false false true statusChan hstat

theorem addsOnlyWhenAbsent_of_no_adds (m : List (String × Nat)) (evs : List Event)
    (h : addEntryKeys evs = []) : addsOnlyWhenAbsent m evs = true := by
  induction evs generalizing m with
  | nil => rfl
  | cons e evs ih =>
    cases e <;> simp_all [addEntryKeys, addsOnlyWhenAbsent, applyEvent]

theorem reconcileSpecial_replay (env : Env) (st : CtrlState) (tc : FederatedTypeConfig) :
    addsOnlyWhenAbsent st.stopChannels (reconcileSpecial env st tc).events = true ∧
    (reconcileSpecial env st tc).state.stopChannels
      = replayMap st.stopChannels (reconcileSpecial env st tc).events := by
  unfold reconcileSpecial
  cases hsk : mapLookup st.stopChannels tc.name <;>
    by_cases hu : env.updateStatusOK = true <;>
      simp [hsk, hu, addsOnlyWhenAbsent, applyEvent, addFreshEntry, replayMap]

theorem addEntryKeys_nil_eq : addEntryKeys [] = [] := rfl

theorem addEntryKeys_cons_close (ch : Nat) (evs : List Event) :
    addEntryKeys (Event.closeChan ch :: evs) = addEntryKeys evs := rfl

theorem addEntryKeys_cons_remove (k : String) (evs : List Event) :
    addEntryKeys (Event.removeEntry k :: evs) = addEntryKeys evs := rfl

theorem addEntryKeys_cons_finremoved (n : String) (evs : List Event) :
    addEntryKeys (Event.finalizerRemoved n :: evs) = addEntryKeys evs := rfl

theorem reconcileDeleted_replay (env : Env) (store : Store) (st : CtrlState)
    (tc : FederatedTypeConfig) :
    addsOnlyWhenAbsent st.stopChannels (reconcileDeleted env store st tc).events = true ∧
    (reconcileDeleted env store st tc).state.stopChannels
      = replayMap st.stopChannels (reconcileDeleted env store st tc).events := by
  have hEnq : ∀ m : List (String × Nat),
      replayMap m (if isNamespace tc = true then reconcileOnNamespaceFTCUpdate store else [])
        = m := by
    intro m
    split
    · exact replayMap_of_mapNeutral m _ (mapNeutral_enqueues store)
    · rfl
  have hEnqAdds : addEntryKeys
      (if isNamespace tc = true then reconcileOnNamespaceFTCUpdate store else []) = [] := by
    split
    · exact addEntryKeys_enqueues store
    · rfl
  constructor
  · apply addsOnlyWhenAbsent_of_no_adds
    unfold reconcileDeleted
    cases hsk : mapLookup st.stopChannels tc.name <;>
      cases hst : mapLookup st.stopChannels (tc.name ++ "/status") <;>
        by_cases hf : hasFinalizer tc = true <;>
          by_cases hp : env.patchOK = true <;>
            simp [hsk, hst, hf, hp, addEntryKeys_append, hEnqAdds, addEntryKeys_nil_eq,
              addEntryKeys_cons_close, addEntryKeys_cons_remove, addEntryKeys_cons_finremoved]
  · unfold reconcileDeleted
    cases hsk : mapLookup st.stopChannels tc.name <;>
      cases hst : mapLookup st.stopChannels (tc.name ++ "/status") <;>
        by_cases hf : hasFinalizer tc = true <;>
          by_cases hp : env.patchOK = true <;>
            simp [hsk, hst, hf, hp, stopEntry, replayMap_append, hEnq, applyEvent]

theorem reconcile_replay (cfg : ControllerConfig) (env : Env) (store : Store)
    (st : CtrlState) (name : String) :
    addsOnlyWhenAbsent st.stopChannels (reconcile cfg env store st name).events = true ∧
    (reconcile cfg env store st name).state.stopChannels
      = replayMap st.stopChannels (reconcile cfg env store st name).events := by
  cases hget : store.getByName name with
  | none =>
    rw [show reconcile cfg env store st name
        = { state := st, status := ReconciliationStatus.allOK, events := [] } from by
      simp [reconcile, hget]]
    exact ⟨rfl, rfl⟩
  | some tc =>
    by_cases hsp : specialCase cfg tc = true
    · rw [show reconcile cfg env store st name = reconcileSpecial env st tc from by
        simp [reconcile, hget, hsp]]
      exact reconcileSpecial_replay env st tc
    · by_cases hdel : tc.deletionTimestamp = true
      · rw [show reconcile cfg env store st name = reconcileDeleted env store st tc from by
          simp [reconcile, hget, hsp, hdel]]
        exact reconcileDeleted_replay env store st tc
      · rw [show reconcile cfg env store st name = reconcileNormal cfg env store st tc from by
          simp [reconcile, hget, hsp, hdel]]
        unfold reconcileNormal
        by_cases herr : (!hasFinalizer tc && !env.patchOK) = true
        · rw [if_pos herr]
          exact ⟨rfl, rfl⟩
        · rw [if_neg herr]
          obtain ⟨evs, hev, hadds, hst⟩ := syncPhase_replay cfg env store st
            (withFinalizer tc) (normalPrefix store tc)
            (mapLookup st.stopChannels tc.name)
            (mapLookup st.stopChannels (tc.name ++ "/status"))
            (by simp) (by simp)
          rw [hev]
          constructor
          · rw [addsOnlyWhenAbsent_append,
              addsOnlyWhenAbsent_of_mapNeutral _ _ (mapNeutral_normalPrefix store tc),
              replayMap_of_mapNeutral _ _ (mapNeutral_normalPrefix store tc)]
            simpa using hadds
          · rw [hst, replayMap_append,
              replayMap_of_mapNeutral _ _ (mapNeutral_normalPrefix store tc)]

/-! ## Status-controller eligibility lemmas -/


theorem statusControllerEnabledFor_eq_true_iff (cfg : ControllerConfig)
    (tc : FederatedTypeConfig) :
    statusControllerEnabledFor cfg tc = true ↔
      (cfg.rawResourceStatusCollection = false ∧ tc.statusEnabled = true ∧
       tc.name = "services" ∧ tc.statusType.isSome = true) := by
  cases htype : tc.statusType <;>
    simp [statusControllerEnabledFor, isEnabledFederatedServiceStatusCollection, htype,
      and_assoc]

theorem mem_startedStatusChans (n : String) (ch : Nat) (evs : List Event)
    (h : Event.statusStarted n ch ∈ evs) : ch ∈ startedStatusChans evs := by
  simp only [startedStatusChans, List.mem_filterMap]
  exact ⟨Event.statusStarted n ch, h, rfl⟩

theorem startedStatusChans_special (env : Env) (st : CtrlState) (tc : FederatedTypeConfig) :
    startedStatusChans (reconcileSpecial env st tc).events = [] := by
  unfold reconcileSpecial
  cases hsk : mapLookup st.stopChannels tc.name <;>
    by_cases hu : env.updateStatusOK = true <;>
      simp [hsk, hu, startedStatusChans]

theorem startedStatusChans_nil_eq : startedStatusChans [] = [] := rfl

theorem startedStatusChans_cons_close (ch : Nat) (evs : List Event) :
    startedStatusChans (Event.closeChan ch :: evs) = startedStatusChans evs := rfl

theorem startedStatusChans_cons_remove (k : String) (evs : List Event) :
    startedStatusChans (Event.removeEntry k :: evs) = startedStatusChans evs := rfl

theorem startedStatusChans_cons_finremoved (n : String) (evs : List Event) :
    startedStatusChans (Event.finalizerRemoved n :: evs) = startedStatusChans evs := rfl

theorem startedStatusChans_deleted (env : Env) (store : Store) (st : CtrlState)
    (tc : FederatedTypeConfig) :
    startedStatusChans (reconcileDeleted env store st tc).events = [] := by
  have hIf : startedStatusChans
      (if isNamespace tc = true then reconcileOnNamespaceFTCUpdate store else []) = [] := by
    split
    · exact startedStatusChans_enqueues store
    · rfl
  unfold reconcileDeleted
  cases hsk : mapLookup st.stopChannels tc.name <;>
    cases hst : mapLookup st.stopChannels (tc.name ++ "/status") <;>
      by_cases hf : hasFinalizer tc = true <;>
        by_cases hp : env.patchOK = true <;>
          simp [hsk, hst, hf, hp, startedStatusChans_append, hIf,
            startedStatusChans_cons_close, startedStatusChans_cons_remove,
            startedStatusChans_cons_finremoved, startedStatusChans_nil_eq]

theorem statusPhase_statusStarted_disabled (cfg : ControllerConfig) (env : Env)
    (store : Store) (st : CtrlState) (tc : FederatedTypeConfig) (ev : List Event)
    (b1 b2 b3 : Bool) (statusChan : Option Nat)
    (hdis : statusControllerEnabledFor cfg tc = false) :
    startedStatusChans (statusPhase cfg env store st tc ev b1 b2 b3 statusChan).events
      = startedStatusChans ev := by
  cases statusChan with
  | none =>
    simp only [statusPhase]
    rw [if_neg (by simp [hdis])]
    exact refreshPhase_statusStarted env store st tc ev b1 b2 b3 false false false
  | some ch =>
    simp only [statusPhase]
    rw [if_pos (by simp [hdis])]
    rw [refreshPhase_statusStarted]
    simp only [startedStatusChans_append]
    simp [startedStatusChans]

theorem syncPhase_statusStarted_disabled (cfg : ControllerConfig) (env : Env)
    (store : Store) (st : CtrlState) (tc : FederatedTypeConfig) (ev : List Event)
    (syncChan statusChan : Option Nat)
    (hdis : statusControllerEnabledFor cfg tc = false) :
    startedStatusChans (syncPhase cfg env store st tc ev syncChan statusChan).events
      = startedStatusChans ev := by
  cases syncChan with
  | none =>
    simp only [syncPhase]
    by_cases hp : tc.propagationEnabled = true
    · rw [if_pos hp]
      by_cases hns : (tc.targetNamespaced && !namespaceFTCExists store) = true
      · rw [if_pos hns]
      · rw [if_neg hns]
        by_cases hok : env.syncStartOK = true
        · rw [if_pos hok]
          rw [statusPhase_statusStarted_disabled cfg env store _ tc _ true false false
            statusChan hdis]
          simp only [startedStatusChans_append]
          simp [startedStatusChans]
        · rw [if_neg hok]
          simp only [startedStatusChans_append]
          simp [startedStatusChans]
    · rw [if_neg hp]
      exact statusPhase_statusStarted_disabled cfg env store st tc ev false false false
        statusChan hdis
  | some ch =>
    simp only [syncPhase]
    by_cases hstop : ((!tc.propagationEnabled)
        || (tc.targetNamespaced && !namespaceFTCExists store)) = true
    · rw [if_pos hstop]
      rw [statusPhase_statusStarted_disabled cfg env store _ tc _ false true true
        statusChan hdis]
      simp only [startedStatusChans_append]
      simp [startedStatusChans]
    · rw [if_neg hstop]
      exact statusPhase_statusStarted_disabled cfg env store st tc ev false false true
        statusChan hdis

/-! ## Registration–start pairing lemmas -/

/-- The map registrations of a trace, controller and placeholder alike,
as key–channel pairs. -/
def regPairs (evs : List Event) : List (String × Nat) :=
  evs.filterMap (fun e => match e with
    | Event.addEntry k ch => some (k, ch)
    | Event.holderChan k ch => some (k, ch)
    | _ => none)

/-- The successful controller starts of a trace, keyed the way the map
registrations are keyed. -/
def startPairs (evs : List Event) : List (String × Nat) :=
  evs.filterMap (fun e => match e with
    | Event.syncStarted n ch => some (n, ch)
    | Event.statusStarted n ch => some (n ++ "/status", ch)
    | _ => none)

@[simp] theorem regPairs_append (a b : List Event) :
    regPairs (a ++ b) = regPairs a ++ regPairs b := by
  simp [regPairs]

@[simp] theorem startPairs_append (a b : List Event) :
    startPairs (a ++ b) = startPairs a ++ startPairs b := by
  simp [startPairs]

@[simp] theorem regPairs_enqueues (store : Store) :
    regPairs (reconcileOnNamespaceFTCUpdate store) = [] := by
  unfold reconcileOnNamespaceFTCUpdate regPairs
  induction store.items with
  | nil => rfl
  | cons x xs ih =>
    by_cases hx : (x.targetNamespaced && !isNamespace x) = true <;>
      simp_all [List.filterMap_cons]

@[simp] theorem startPairs_enqueues (store : Store) :
    startPairs (reconcileOnNamespaceFTCUpdate store) = [] := by
  unfold reconcileOnNamespaceFTCUpdate startPairs
  induction store.items with
  | nil => rfl
  | cons x xs ih =>
    by_cases hx : (x.targetNamespaced && !isNamespace x) = true <;>
      simp_all [List.filterMap_cons]

theorem regPairs_normalPrefix (store : Store) (tc : FederatedTypeConfig) :
    regPairs (normalPrefix store tc) = [] := by
  rcases normalPrefix_cases store tc with h | h | h
  · simp [h, regPairs]
  · simp [h, regPairs, List.filterMap_cons]
  · rw [h, regPairs_append, regPairs_enqueues]
    simp [regPairs, List.filterMap_cons]

theorem startPairs_normalPrefix (store : Store) (tc : FederatedTypeConfig) :
    startPairs (normalPrefix store tc) = [] := by
  rcases normalPrefix_cases store tc with h | h | h
  · simp [h, startPairs]
  · simp [h, startPairs, List.filterMap_cons]
  · rw [h, startPairs_append, startPairs_enqueues]
    simp [startPairs, List.filterMap_cons]

theorem writeStatus_pairs (env : Env) (st : CtrlState) (tc : FederatedTypeConfig)
    (ev : List Event) (a b c d e f : Bool) :
    ∃ t, (writeStatus env st tc ev a b c d e f).events = ev ++ t ∧
      regPairs t = startPairs t := by
  unfold writeStatus
  by_cases hu : env.updateStatusOK = true
  · exact ⟨[Event.statusUpdate (publishStatus tc (a || (c && !b)) (d || (f && !e)))],
      by rw [if_pos hu], by simp [regPairs, startPairs, List.filterMap_cons]⟩
  · exact ⟨[], by rw [if_neg hu]; simp, rfl⟩

theorem refreshStart_pairs (env : Env) (store : Store) (st : CtrlState)
    (tc : FederatedTypeConfig) (ev : List Event) (a b c d e f : Bool) :
    ∃ t, (refreshStart env store st tc ev a b c d e f).events = ev ++ t ∧
      regPairs t = startPairs t := by
  unfold refreshStart
  by_cases hg : (tc.targetNamespaced && !namespaceFTCExists store) = true
  · exact ⟨[], by rw [if_pos hg]; simp, rfl⟩
  · rw [if_neg hg]
    by_cases hs : env.syncStartOK = true
    · rw [if_pos hs]
      obtain ⟨t, ht, hp⟩ := writeStatus_pairs env (addFreshEntry st tc.name) tc
        (ev ++ [Event.syncStarted tc.name st.chans.nextId, Event.addEntry tc.name st.chans.nextId])
        a b c d e f
      exact ⟨[Event.syncStarted tc.name st.chans.nextId,
          Event.addEntry tc.name st.chans.nextId] ++ t,
        by rw [ht, List.append_assoc],
        by simp only [regPairs_append, startPairs_append, hp]
           simp [regPairs, startPairs, List.filterMap_cons]⟩
    · exact ⟨[Event.syncStartFailed tc.name st.chans.nextId, Event.closeChan st.chans.nextId],
        by rw [if_neg hs], by simp [regPairs, startPairs, List.filterMap_cons]⟩

theorem refreshPhase_pairs (env : Env) (store : Store) (st : CtrlState)
    (tc : FederatedTypeConfig) (ev : List Event) (a b c d e f : Bool) :
    ∃ t, (refreshPhase env store st tc ev a b c d e f).events = ev ++ t ∧
      regPairs t = startPairs t := by
  unfold refreshPhase
  by_cases hg : (!a && !b && !(tc.observedGeneration == tc.generation)) = true
  · rw [if_pos hg]
    cases hsk : mapLookup st.stopChannels tc.name with
    | some ch =>
      obtain ⟨t, ht, hp⟩ := refreshStart_pairs env store (stopEntry st tc.name ch) tc
        (ev ++ [Event.closeChan ch, Event.removeEntry tc.name]) a b c d e f
      exact ⟨[Event.closeChan ch, Event.removeEntry tc.name] ++ t,
        by rw [ht, List.append_assoc],
        by simp only [regPairs_append, startPairs_append, hp]
           simp [regPairs, startPairs, List.filterMap_cons]⟩
    | none => exact refreshStart_pairs env store st tc ev a b c d e f
  · rw [if_neg hg]
    exact writeStatus_pairs env st tc ev a b c d e f

theorem statusPhase_pairs (cfg : ControllerConfig) (env : Env) (store : Store)
    (st : CtrlState) (tc : FederatedTypeConfig) (ev : List Event)
    (a b c : Bool) (statusChan : Option Nat) :
    ∃ t, (statusPhase cfg env store st tc ev a b c statusChan).events = ev ++ t ∧
      regPairs t = startPairs t := by
  cases statusChan with
  | none =>
    simp only [statusPhase]
    by_cases he : statusControllerEnabledFor cfg tc = true
    · rw [if_pos he]
      by_cases hs : env.statusStartOK = true
      · rw [if_pos hs]
        obtain ⟨t, ht, hp⟩ := refreshPhase_pairs env store
          (addFreshEntry st (tc.name ++ "/status")) tc
          (ev ++ [Event.statusStarted tc.name st.chans.nextId,
                  Event.addEntry (tc.name ++ "/status") st.chans.nextId]) a b c true false false
        exact ⟨[Event.statusStarted tc.name st.chans.nextId,
            Event.addEntry (tc.name ++ "/status") st.chans.nextId] ++ t,
          by rw [ht, List.append_assoc],
          by simp only [regPairs_append, startPairs_append, hp]
             simp [regPairs, startPairs, List.filterMap_cons]⟩
      · exact ⟨[Event.statusStartFailed (tc.name ++ "/status") st.chans.nextId,
            Event.closeChan st.chans.nextId],
          by rw [if_neg hs], by simp [regPairs, startPairs, List.filterMap_cons]⟩
    · rw [if_neg he]
      exact refreshPhase_pairs env store st tc ev a b c false false false
  | some ch =>
    simp only [statusPhase]
    by_cases he : (!statusControllerEnabledFor cfg tc) = true
    · rw [if_pos he]
      obtain ⟨t, ht, hp⟩ := refreshPhase_pairs env store
        (stopEntry st (tc.name ++ "/status") ch) tc
        (ev ++ [Event.closeChan ch, Event.removeEntry (tc.name ++ "/status")]) a b c false true true
      exact ⟨[Event.closeChan ch, Event.removeEntry (tc.name ++ "/status")] ++ t,
        by rw [ht, List.append_assoc],
        by simp only [regPairs_append, startPairs_append, hp]
           simp [regPairs, startPairs, List.filterMap_cons]⟩
    · rw [if_neg he]
      exact refreshPhase_pairs env store st tc ev a b c false false true

theorem syncPhase_pairs (cfg : ControllerConfig) (env : Env) (store : Store)
    (st : CtrlState) (tc : FederatedTypeConfig) (ev : List Event)
    (syncChan statusChan : Option Nat) :
    ∃ t, (syncPhase cfg env store st tc ev syncChan statusChan).events = ev ++ t ∧
      regPairs t = startPairs t := by
  cases syncChan with
  | none =>
    simp only [syncPhase]
    by_cases hp : tc.propagationEnabled = true
    · rw [if_pos hp]
      by_cases hg : (tc.targetNamespaced && !namespaceFTCExists store) = true
      · rw [if_pos hg]
        exact ⟨[], by simp, rfl⟩
      · rw [if_neg hg]
        by_cases hs : env.syncStartOK = true
        · rw [if_pos hs]
          obtain ⟨t, ht, hpp⟩ := statusPhase_pairs cfg env store (addFreshEntry st tc.name) tc
            (ev ++ [Event.syncStarted tc.name st.chans.nextId,
                    Event.addEntry tc.name st.chans.nextId]) true false false statusChan
          exact ⟨[Event.syncStarted tc.name st.chans.nextId,
              Event.addEntry tc.name st.chans.nextId] ++ t,
            by rw [ht, List.append_assoc],
            by simp only [regPairs_append, startPairs_append, hpp]
               simp [regPairs, startPairs, List.filterMap_cons]⟩
        · exact ⟨[Event.syncStartFailed tc.name st.chans.nextId,
              Event.closeChan st.chans.nextId],
            by rw [if_neg hs], by simp [regPairs, startPairs, List.filterMap_cons]⟩
    · rw [if_neg hp]
      exact statusPhase_pairs cfg env store st tc ev false false false statusChan
  | some ch =>
    simp only [syncPhase]
    by_cases hp : (!tc.propagationEnabled || (tc.targetNamespaced && !namespaceFTCExists store))
        = true
    · rw [if_pos hp]
      obtain ⟨t, ht, hpp⟩ := statusPhase_pairs cfg env store (stopEntry st tc.name ch) tc
        (ev ++ [Event.closeChan ch, Event.removeEntry tc.name]) false true true statusChan
      exact ⟨[Event.closeChan ch, Event.removeEntry tc.name] ++ t,
        by rw [ht, List.append_assoc],
        by simp only [regPairs_append, startPairs_append, hpp]
           simp [regPairs, startPairs, List.filterMap_cons]⟩
    · rw [if_neg hp]
      exact statusPhase_pairs cfg env store st tc ev false false true statusChan

theorem regPairs_nil : regPairs [] = [] := rfl

theorem regPairs_cons_close (ch : Nat) (evs : List Event) :
    regPairs (Event.closeChan ch :: evs) = regPairs evs := rfl

theorem regPairs_cons_remove (k : String) (evs : List Event) :
    regPairs (Event.removeEntry k :: evs) = regPairs evs := rfl

theorem regPairs_cons_finremoved (n : String) (evs : List Event) :
    regPairs (Event.finalizerRemoved n :: evs) = regPairs evs := rfl

theorem startPairs_nil : startPairs [] = [] := rfl

theorem startPairs_cons_close (ch : Nat) (evs : List Event) :
    startPairs (Event.closeChan ch :: evs) = startPairs evs := rfl

theorem startPairs_cons_remove (k : String) (evs : List Event) :
    startPairs (Event.removeEntry k :: evs) = startPairs evs := rfl

theorem startPairs_cons_finremoved (n : String) (evs : List Event) :
    startPairs (Event.finalizerRemoved n :: evs) = startPairs evs := rfl

theorem regPairs_deleted (env : Env) (store : Store) (st : CtrlState)
    (tc : FederatedTypeConfig) :
    regPairs (reconcileDeleted env store st tc).events = []
      ∧ startPairs (reconcileDeleted env store st tc).events = [] := by
  unfold reconcileDeleted
  have hIfR : regPairs
      (if isNamespace tc = true then reconcileOnNamespaceFTCUpdate store else []) = [] := by
    split
    · exact regPairs_enqueues store
    · rfl
  have hIfS : startPairs
      (if isNamespace tc = true then reconcileOnNamespaceFTCUpdate store else []) = [] := by
    split
    · exact startPairs_enqueues store
    · rfl
  cases hsk : mapLookup st.stopChannels tc.name <;>
    cases hst : mapLookup st.stopChannels (tc.name ++ "/status") <;>
      by_cases hf : hasFinalizer tc = true <;>
        by_cases hpk : env.patchOK = true <;>
          simp [hsk, hst, hf, hpk, regPairs_append, startPairs_append, hIfR, hIfS,
            regPairs_cons_close, regPairs_cons_remove, regPairs_cons_finremoved, regPairs_nil,
            startPairs_cons_close, startPairs_cons_remove, startPairs_cons_finremoved,
            startPairs_nil]

/-! ## Deletion oracles of the CRUD tester and the sync deletion subflow -/

/-- What one `Get` of the target object in a member cluster observed:
the object is present (with or without the managed label), absent
(a not-found error), or the read failed with some other error. -/
inductive ObsResult where
  | present (managed : Bool)
  | notFound
  | otherError
deriving DecidableEq, Repr

/-- Outcome of one iteration of a `wait.PollUntilContextTimeout` condition
function: accept and stop polling, poll again, or abort with an error. -/
inductive PollOutcome where
  | done
  | retry
  | fail
deriving DecidableEq, Repr

/-- The per-cluster condition function of
`FederatedTypeCrudTester.CheckDelete`: given whether the managed resources
are being deleted in the clusters (no orphaning), whether the target is a
namespace, whether this cluster is the primary (host) cluster, and the
observation, decide the poll outcome.  Faithful to the `switch` at
crudtester.go lines 352-374. -/
def checkDeleteCondition (deletingInCluster targetIsNamespace isPrimary : Bool)
    (obs : ObsResult) : PollOutcome :=
  match deletingInCluster, obs with
  | false, ObsResult.notFound => PollOutcome.fail
  | true, ObsResult.present managed =>
    if targetIsNamespace && isPrimary then
      (if managed then PollOutcome.retry else PollOutcome.done)
    else PollOutcome.retry
  | false, ObsResult.present managed =>
    if managed then PollOutcome.retry else PollOutcome.done
  | _, ObsResult.otherError => PollOutcome.retry
  | true, ObsResult.notFound => PollOutcome.done

/-- The condition function of
`FederatedTypeCrudTester.checkHostNamespaceUnlabeled`: accept only once the
host-cluster namespace is observed present without the managed label; any
read error (a not-found included) polls again. -/
def checkHostNamespaceUnlabeledCondition (obs : ObsResult) : PollOutcome :=
  match obs with
  | ObsResult.present managed => if managed then PollOutcome.retry else PollOutcome.done
  | _ => PollOutcome.retry

/-- Which check `FederatedTypeCrudTester.CheckPropagation` runs for one
cluster: presence (with version and label) when the cluster is selected by
placement, the host-namespace-unlabeled check for the primary cluster of a
namespace target, and deletion otherwise. -/
inductive ClusterCheckKind where
  | resourcePresent
  | hostNamespaceUnlabeled
  | resourceDeleted
deriving DecidableEq, Repr

/-- The dispatch of `CheckPropagation` (crudtester.go lines 499-528). -/
def propagationCheckKind (selected targetIsNamespace isPrimary : Bool) : ClusterCheckKind :=
  if selected then ClusterCheckKind.resourcePresent
  else if targetIsNamespace && isPrimary then ClusterCheckKind.hostNamespaceUnlabeled
  else ClusterCheckKind.resourceDeleted

/-- What the sync controller does to the target object of one cluster. -/
inductive TargetDisposition where
  | deleteTarget
  | unlabelTarget
  | keepTarget
deriving DecidableEq, Repr

/-- Modelled from the spec: the sync controller's deletion subflow (spec
§4.F) for one cluster holding (or not holding) the target, on deletion of
the federated object.  The sync controller itself is not among the
extracted sources; per the spec, with the orphan annotation all targets are
unlabelled instead of deleted, and for namespace targets the primary/host
cluster's namespace is never deleted, only unlabelled. -/
def deletionSubflowDisposition (orphan targetIsNamespace isPrimary holdsTarget : Bool) :
    TargetDisposition :=
  if !holdsTarget then TargetDisposition.keepTarget
  else if orphan then TargetDisposition.unlabelTarget
  else if targetIsNamespace && isPrimary then TargetDisposition.unlabelTarget
  else TargetDisposition.deleteTarget

/-- Modelled from the spec: the sync controller's treatment (spec §4.F step
7 and §4.D) of a cluster that still holds the target but is no longer
selected by placement: delete the target, except that the primary/host
cluster's namespace is only unlabelled. -/
def unselectedClusterDisposition (targetIsNamespace isPrimary holdsTarget : Bool) :
    TargetDisposition :=
  if !holdsTarget then TargetDisposition.keepTarget
  else if targetIsNamespace && isPrimary then TargetDisposition.unlabelTarget
  else TargetDisposition.deleteTarget

/-! ## The informer event filter (`NewTriggerOnAllChanges`) -/

/-- A watched object as the event filter compares it: identity plus the
mutable spec and metadata payload (status and resourceVersion, which the
filter's deep-equality is taken modulo, are not part of this value). -/
structure WatchObject where
  namespaceName : String
  name : String
  annotations : List (String × String)
  payload : String
deriving DecidableEq, Repr

/-- An informer event as delivered to the trigger handlers: add, update,
plain delete, or a deleted-final-state-unknown tombstone that may or may
not carry the last known object. -/
inductive WatchEvent where
  | add (cur : WatchObject)
  | update (old cur : WatchObject)
  | delete (old : WatchObject)
  | deleteTombstone (obj : Option WatchObject)
deriving DecidableEq, Repr

/-- Modelled from the spec: `NewTriggerOnAllChanges` (spec §4.B), the event
filter whose behaviour the `TestHandlers` test in the extracted sources
asserts.  Returns the object handed to the trigger function, or `none` when
the event is filtered out: adds always trigger with the new object, deletes
trigger with the deleted object (a tombstone only when it carries one), and
updates trigger with the new object exactly when old and new are not
deep-equal. -/
def triggerOnAllChanges : WatchEvent → Option WatchObject
  | WatchEvent.add cur => some cur
  | WatchEvent.update old cur => if old = cur then none else some cur
  | WatchEvent.delete old => some old
  | WatchEvent.deleteTombstone (some o) => some o
  | WatchEvent.deleteTombstone none => none

/-- The service fixture `ns1/s1` of `TestHandlers`. -/
def testService : WatchObject :=
  { namespaceName := "ns1", name := "s1", annotations := [], payload := "" }

/-- The same service with an annotation added, as in `TestHandlers`. -/
def testService2 : WatchObject :=
  { namespaceName := "ns1", name := "s1", annotations := [("A", "B")], payload := "" }

/-! ## Concrete fixtures for witnesses and counterexamples -/

/-- An environment in which every external call succeeds. -/
def envAllOK : Env :=
  { patchOK := true, syncStartOK := true, statusStartOK := true, updateStatusOK := true }

/-- A cluster-scoped control plane (target namespace is NamespaceAll). -/
def cfgHost : ControllerConfig :=
  { kubeFedNamespace := "kube-federation-system", targetNamespace := "",
    rawResourceStatusCollection := false }

/-- A namespace-scoped control plane. -/
def cfgLimited : ControllerConfig :=
  { kubeFedNamespace := "kube-federation-system",
    targetNamespace := "kube-federation-system", rawResourceStatusCollection := false }

def apiFedNamespace : APIResource :=
  { group := "types.kubefed.io", version := "v1beta1", kind := "FederatedNamespace",
    pluralName := "federatednamespaces", namespaced := true }

def apiFedService : APIResource :=
  { group := "types.kubefed.io", version := "v1beta1", kind := "FederatedService",
    pluralName := "federatedservices", namespaced := true }

def apiServiceStatus : APIResource :=
  { group := "types.kubefed.io", version := "v1beta1", kind := "FederatedServiceStatus",
    pluralName := "federatedservicestatuses", namespaced := true }

def apiFedClusterRole : APIResource :=
  { group := "types.kubefed.io", version := "v1beta1", kind := "FederatedClusterRole",
    pluralName := "federatedclusterroles", namespaced := false }

/-- The namespaces type descriptor. -/
def namespacesFTC : FederatedTypeConfig :=
  { name := "namespaces", generation := 1, deletionTimestamp := false,
    finalizers := [finalizerName], propagationEnabled := true, statusEnabled := false,
    targetNamespaced := true, federatedType := apiFedNamespace, statusType := none,
    observedGeneration := 1, propagationControllerStatus := "",
    statusControllerStatus := none }

/-- The services type descriptor with status collection enabled. -/
def servicesFTC : FederatedTypeConfig :=
  { name := "services", generation := 1, deletionTimestamp := false,
    finalizers := [finalizerName], propagationEnabled := true, statusEnabled := true,
    targetNamespaced := true, federatedType := apiFedService,
    statusType := some apiServiceStatus,
    observedGeneration := 1, propagationControllerStatus := "",
    statusControllerStatus := none }

/-- A cluster-scoped descriptor with propagation enabled. -/
def clusterRolesFTC : FederatedTypeConfig :=
  { name := "clusterroles", generation := 2, deletionTimestamp := false,
    finalizers := [finalizerName], propagationEnabled := true, statusEnabled := false,
    targetNamespaced := false, federatedType := apiFedClusterRole, statusType := none,
    observedGeneration := 1, propagationControllerStatus := "",
    statusControllerStatus := none }

/-- A `services` descriptor with status collection disabled. -/
def servicesNoStatusFTC : FederatedTypeConfig :=
  { servicesFTC with statusEnabled := false }

/-- A state with a status controller registered for `clusterroles` (channel 7)
and no sync controller. -/
def stClusterStatus : CtrlState :=
  { stopChannels := [("clusterroles/status", 7)], chans := { nextId := 8, closed := [] } }


/-- All external calls succeed except starting a sync controller. -/
def envSyncFail : Env :=
  { patchOK := true, syncStartOK := false, statusStartOK := true, updateStatusOK := true }

/-- All external calls succeed except starting a status controller. -/
def envStatusFail : Env :=
  { patchOK := true, syncStartOK := true, statusStartOK := false, updateStatusOK := true }


/-! ## Claims -/

/-- C1: for every reconcile of a non-deleted type descriptor outside the
namespaced-control-plane special case (and whose finalizer-ensure step does
not fail): (a) if propagation is enabled, no sync controller is registered
under the descriptor's name, and the start succeeds, exactly one sync
controller is started and its stop channel is registered under the
descriptor's name; (b) if a sync controller is registered but propagation
is disabled, or the descriptor is namespaced and the namespaces descriptor
is absent, its stop channel is closed and its entry removed, and no sync
controller is started; (c) and (d) the status controller is managed by the
same start/stop logic under the independent key `name ++ "/status"`, using
the status-collection enablement in place of propagation (provided the
sync-controller step did not return early with an error). -/
theorem c1_sync_and_status_start_stop_logic
    (cfg : ControllerConfig) (env : Env) (store : Store) (st : CtrlState)
    (name : String) (tc : FederatedTypeConfig)
    (hfound : store.getByName name = some tc)
    (hnotdel : tc.deletionTimestamp = false)
    (hnotspecial : specialCase cfg tc = false)
    (hfin : hasFinalizer tc = true ∨ env.patchOK = true) :
    (tc.propagationEnabled = true →
      mapLookup st.stopChannels tc.name = none →
      (tc.targetNamespaced = true → namespaceFTCExists store = true) →
      env.syncStartOK = true →
      startedSyncChans (reconcile cfg env store st name).events = [st.chans.nextId] ∧
      mapLookup (reconcile cfg env store st name).state.stopChannels tc.name
        = some st.chans.nextId) ∧
    (∀ ch, mapLookup st.stopChannels tc.name = some ch →
      (tc.propagationEnabled = false
        ∨ (tc.targetNamespaced = true ∧ namespaceFTCExists store = false)) →
      Event.closeChan ch ∈ (reconcile cfg env store st name).events ∧
      Event.removeEntry tc.name ∈ (reconcile cfg env store st name).events ∧
      mapLookup (reconcile cfg env store st name).state.stopChannels tc.name = none ∧
      startedSyncChans (reconcile cfg env store st name).events = []) ∧
    (syncPhaseOk env store st tc = true →
      statusControllerEnabledFor cfg tc = true →
      mapLookup st.stopChannels (tc.name ++ "/status") = none →
      env.statusStartOK = true →
      ∃ ch, startedStatusChans (reconcile cfg env store st name).events = [ch] ∧
        mapLookup (reconcile cfg env store st name).state.stopChannels (tc.name ++ "/status")
          = some ch) ∧
    (∀ ch, syncPhaseOk env store st tc = true →
      mapLookup st.stopChannels (tc.name ++ "/status") = some ch →
      statusControllerEnabledFor cfg tc = false →
      Event.closeChan ch ∈ (reconcile cfg env store st name).events ∧
      Event.removeEntry (tc.name ++ "/status") ∈ (reconcile cfg env store st name).events ∧
      mapLookup (reconcile cfg env store st name).state.stopChannels (tc.name ++ "/status")
        = none ∧
      startedStatusChans (reconcile cfg env store st name).events = []) := by
  have hred : reconcile cfg env store st name
      = syncPhase cfg env store st (withFinalizer tc) (normalPrefix store tc)
          (mapLookup st.stopChannels tc.name)
          (mapLookup st.stopChannels (tc.name ++ "/status")) := by
    rw [show reconcile cfg env store st name = reconcileNormal cfg env store st tc from by
      simp [reconcile, hfound, hnotspecial, hnotdel]]
    exact reconcileNormal_eq cfg env store st tc hfin
  rw [hred]
  refine ⟨?_, ?_, ?_, ?_⟩
  · intro hp hnone hns hok
    rw [hnone]
    have := syncPhase_start_sync cfg env store st (withFinalizer tc) (normalPrefix store tc)
      (mapLookup st.stopChannels (tc.name ++ "/status"))
      (startedSyncChans_normalPrefix store tc)
      (by simpa using hp) (by simpa using hns) hok
    simpa using this
  · intro ch hsome hstop
    rw [hsome]
    have := syncPhase_stop_sync cfg env store st (withFinalizer tc) (normalPrefix store tc)
      (mapLookup st.stopChannels (tc.name ++ "/status")) ch
      (startedSyncChans_normalPrefix store tc)
      (by simpa using hstop)
    simpa using this
  · intro hso henabled hnone hok
    rw [hnone]
    have := syncPhase_start_status cfg env store st (withFinalizer tc) (normalPrefix store tc)
      (mapLookup st.stopChannels tc.name)
      (startedStatusChans_normalPrefix store tc)
      (by simp) (by simpa [syncPhaseOk] using hso) (by simpa using henabled) hok
    simpa using this
  · intro ch hso hsome henabled
    rw [hsome]
    have := syncPhase_stop_status cfg env store st (withFinalizer tc) (normalPrefix store tc)
      (mapLookup st.stopChannels tc.name) ch
      (startedStatusChans_normalPrefix store tc)
      (by simp) (by simpa [syncPhaseOk] using hso) (by simpa using henabled)
    simpa using this

/-- Witness for C1: on a fresh controller, reconciling the services
descriptor (with the namespaces descriptor in the store) starts exactly one
sync controller and registers channel 0 under `services`, and starts one
status controller registered under `services/status`. -/
theorem c1_witness :
    (startedSyncChans (reconcile cfgHost envAllOK ⟨[servicesFTC, namespacesFTC]⟩
        initialState "services").events = [0] ∧
      mapLookup (reconcile cfgHost envAllOK ⟨[servicesFTC, namespacesFTC]⟩
        initialState "services").state.stopChannels "services" = some 0) ∧
    (∃ ch, startedStatusChans (reconcile cfgHost envAllOK ⟨[servicesFTC, namespacesFTC]⟩
        initialState "services").events = [ch] ∧
      mapLookup (reconcile cfgHost envAllOK ⟨[servicesFTC, namespacesFTC]⟩
        initialState "services").state.stopChannels ("services" ++ "/status") = some ch) := by
  have h := c1_sync_and_status_start_stop_logic cfgHost envAllOK
    ⟨[servicesFTC, namespacesFTC]⟩ initialState "services" servicesFTC
    (by decide) (by decide) (by decide) (Or.inl (by decide))
  exact ⟨h.1 (by decide) (by decide) (by decide) (by decide),
    h.2.2.1 (by decide) (by decide) (by decide) (by decide)⟩

/-- C2: for every reconcile of a descriptor under a namespace-scoped
control plane with propagation enabled and a cluster-scoped target type
(and a successful status write): no sync or status controller is started; a
placeholder stop channel is recorded under the descriptor's name if none
exists (and an existing entry leaves the state untouched);
`status.observedGeneration` is set to `metadata.generation` and both
controller statuses are published as `ControllerStatusNotRunning`; and the
reconcile returns AllOK. -/
theorem c2_namespaced_control_plane_special_case
    (cfg : ControllerConfig) (env : Env) (store : Store)
    (st : CtrlState) (name : String) (tc : FederatedTypeConfig)
    (hfound : store.getByName name = some tc)
    (hscope : isLimitedScope cfg = true)
    (hsync : tc.propagationEnabled = true)
    (hcluster : tc.targetNamespaced = false)
    (hupd : env.updateStatusOK = true) :
    startedSyncChans (reconcile cfg env store st name).events = [] ∧
    startedStatusChans (reconcile cfg env store st name).events = [] ∧
    (mapLookup st.stopChannels tc.name = none →
      mapLookup (reconcile cfg env store st name).state.stopChannels tc.name
        = some st.chans.nextId ∧
      Event.holderChan tc.name st.chans.nextId ∈ (reconcile cfg env store st name).events) ∧
    (∀ ch, mapLookup st.stopChannels tc.name = some ch →
      (reconcile cfg env store st name).state = st) ∧
    Event.statusUpdate (publishStatus tc false false)
      ∈ (reconcile cfg env store st name).events ∧
    (reconcile cfg env store st name).status = ReconciliationStatus.allOK := by
  have hsp : specialCase cfg tc = true := by
    simp [specialCase, hscope, hsync, hcluster]
  cases hlk : mapLookup st.stopChannels tc.name with
  | none =>
    simp [reconcile, hfound, hsp, reconcileSpecial, hlk, hupd,
      startedSyncChans, startedStatusChans, addFreshEntry, mapLookup_cons_self]
  | some ch =>
    simp [reconcile, hfound, hsp, reconcileSpecial, hlk, hupd,
      startedSyncChans, startedStatusChans]

/-- Witness for C2: reconciling the cluster-scoped clusterroles descriptor
under a namespace-scoped control plane records placeholder channel 0,
publishes both statuses as NotRunning, and returns AllOK. -/
theorem c2_witness :
    mapLookup (reconcile cfgLimited envAllOK ⟨[clusterRolesFTC]⟩
        initialState "clusterroles").state.stopChannels "clusterroles" = some 0 ∧
    Event.statusUpdate (publishStatus clusterRolesFTC false false)
      ∈ (reconcile cfgLimited envAllOK ⟨[clusterRolesFTC]⟩
        initialState "clusterroles").events ∧
    (reconcile cfgLimited envAllOK ⟨[clusterRolesFTC]⟩
        initialState "clusterroles").status = ReconciliationStatus.allOK := by
  have h := c2_namespaced_control_plane_special_case cfgLimited envAllOK
    ⟨[clusterRolesFTC]⟩ initialState "clusterroles" clusterRolesFTC
    (by decide) (by decide) (by decide) (by decide) (by decide)
  exact ⟨(h.2.2.1 (by decide)).1, h.2.2.2.2.1, h.2.2.2.2.2⟩

/-- The clusterroles descriptor marked for deletion. -/
def deletedClusterRolesFTC : FederatedTypeConfig :=
  { clusterRolesFTC with deletionTimestamp := true }

/-- The services descriptor marked for deletion. -/
def deletedServicesFTC : FederatedTypeConfig :=
  { servicesFTC with deletionTimestamp := true }

/-- A controller state with one sync controller registered under
`clusterroles`. -/
def stOneSync : CtrlState :=
  { stopChannels := [("clusterroles", 0)], chans := { nextId := 1, closed := [] } }

/-- A controller state with a sync controller and a status controller
registered for `services`. -/
def stSyncAndStatus : CtrlState :=
  { stopChannels := [("services", 3), ("services/status", 4)],
    chans := { nextId := 5, closed := [] } }

/-- Counterexample to C3 as stated: a deleted cluster-scoped descriptor
with propagation enabled, reconciled under a namespace-scoped control
plane, hits the special-case branch first.  Its registered sync controller
is left registered and not stopped, its finalizer is not removed, and the
reconcile still returns AllOK - contradicting the claim that every
reconcile of a descriptor with a deletion timestamp stops the controllers
and removes the finalizer. -/
theorem c3_counterexample :
    (Store.getByName ⟨[deletedClusterRolesFTC]⟩ "clusterroles"
        = some deletedClusterRolesFTC ∧
      deletedClusterRolesFTC.deletionTimestamp = true ∧
      hasFinalizer deletedClusterRolesFTC = true ∧
      mapLookup stOneSync.stopChannels "clusterroles" = some 0) ∧
    mapLookup (reconcile cfgLimited envAllOK ⟨[deletedClusterRolesFTC]⟩ stOneSync
        "clusterroles").state.stopChannels "clusterroles" = some 0 ∧
    Event.closeChan 0 ∉ (reconcile cfgLimited envAllOK ⟨[deletedClusterRolesFTC]⟩ stOneSync
        "clusterroles").events ∧
    Event.finalizerRemoved "clusterroles"
      ∉ (reconcile cfgLimited envAllOK ⟨[deletedClusterRolesFTC]⟩ stOneSync
        "clusterroles").events ∧
    (reconcile cfgLimited envAllOK ⟨[deletedClusterRolesFTC]⟩ stOneSync
        "clusterroles").status = ReconciliationStatus.allOK := by
  decide

/-- C3 (amended): for every reconcile of a type descriptor whose
DeletionTimestamp is set, provided the namespaced-control-plane special
case does not apply (that branch returns before the deletion handling):
any registered sync controller and status controller are stopped (their
channels closed, their entries removed); the finalizer removal happens
after the stops (it is the last action when it happens); on successful
finalizer removal the reconcile returns AllOK; and on failure it returns
Error without having left a controller registered. -/
theorem c3_deletion_stops_controllers_then_removes_finalizer
    (cfg : ControllerConfig) (env : Env) (store : Store) (st : CtrlState)
    (name : String) (tc : FederatedTypeConfig)
    (hfound : store.getByName name = some tc)
    (hdel : tc.deletionTimestamp = true)
    (hnotspecial : specialCase cfg tc = false) :
    (∀ ch, mapLookup st.stopChannels tc.name = some ch →
      Event.closeChan ch ∈ (reconcile cfg env store st name).events ∧
      ch ∈ (reconcile cfg env store st name).state.chans.closed) ∧
    (∀ ch, mapLookup st.stopChannels (tc.name ++ "/status") = some ch →
      Event.closeChan ch ∈ (reconcile cfg env store st name).events ∧
      ch ∈ (reconcile cfg env store st name).state.chans.closed) ∧
    mapLookup (reconcile cfg env store st name).state.stopChannels tc.name = none ∧
    mapLookup (reconcile cfg env store st name).state.stopChannels (tc.name ++ "/status")
      = none ∧
    (hasFinalizer tc = true → env.patchOK = false →
      (reconcile cfg env store st name).status = ReconciliationStatus.error ∧
      Event.finalizerRemoved tc.name ∉ (reconcile cfg env store st name).events) ∧
    (hasFinalizer tc = false ∨ env.patchOK = true →
      (reconcile cfg env store st name).status = ReconciliationStatus.allOK) ∧
    (hasFinalizer tc = true → env.patchOK = true →
      (reconcile cfg env store st name).events.getLast?
        = some (Event.finalizerRemoved tc.name)) := by
  have hred : reconcile cfg env store st name = reconcileDeleted env store st tc := by
    simp [reconcile, hfound, hnotspecial, hdel]
  rw [hred]
  have hne : tc.name ≠ tc.name ++ "/status" := (statusKey_ne tc.name).symm
  cases hsk : mapLookup st.stopChannels tc.name with
  | none =>
    cases hst : mapLookup st.stopChannels (tc.name ++ "/status") with
    | none =>
      by_cases hf : hasFinalizer tc = true
      · by_cases hp : env.patchOK = true
        · simp [reconcileDeleted, hsk, hst, hf, hp, stopEntry,
            mapLookup_delete_self, mapLookup_delete_ne, hne, getLast?_append_singleton,
            getLast?_cons_append_singleton, getLast?_cons_cons_append_singleton]
        · simp [reconcileDeleted, hsk, hst, hf, hp, stopEntry]
      · simp [reconcileDeleted, hsk, hst, hf]
    | some ch2 =>
      by_cases hf : hasFinalizer tc = true
      · by_cases hp : env.patchOK = true
        · simp [reconcileDeleted, hsk, hst, hf, hp, stopEntry,
            mapLookup_delete_self, mapLookup_delete_ne _ _ _ hne, hsk,
            getLast?_append_singleton, getLast?_cons_append_singleton,
            getLast?_cons_cons_append_singleton]
        · simp [reconcileDeleted, hsk, hst, hf, hp, stopEntry,
            mapLookup_delete_self, mapLookup_delete_ne _ _ _ hne, hsk]
      · simp [reconcileDeleted, hsk, hst, hf, stopEntry,
          mapLookup_delete_self, mapLookup_delete_ne _ _ _ hne, hsk]
  | some ch1 =>
    cases hst : mapLookup st.stopChannels (tc.name ++ "/status") with
    | none =>
      by_cases hf : hasFinalizer tc = true
      · by_cases hp : env.patchOK = true
        · simp [reconcileDeleted, hsk, hst, hf, hp, stopEntry,
            mapLookup_delete_self, mapLookup_delete_ne _ _ _ (statusKey_ne tc.name), hst,
            getLast?_append_singleton, getLast?_cons_append_singleton,
            getLast?_cons_cons_append_singleton]
        · simp [reconcileDeleted, hsk, hst, hf, hp, stopEntry,
            mapLookup_delete_self, mapLookup_delete_ne _ _ _ (statusKey_ne tc.name), hst]
      · simp [reconcileDeleted, hsk, hst, hf, stopEntry,
          mapLookup_delete_self, mapLookup_delete_ne _ _ _ (statusKey_ne tc.name), hst]
    | some ch2 =>
      by_cases hf : hasFinalizer tc = true
      · by_cases hp : env.patchOK = true
        · simp [reconcileDeleted, hsk, hst, hf, hp, stopEntry,
            mapLookup_delete_self, mapLookup_delete_ne, hne, statusKey_ne,
            getLast?_append_singleton, getLast?_cons_append_singleton,
            getLast?_cons_cons_append_singleton]
        · simp [reconcileDeleted, hsk, hst, hf, hp, stopEntry,
            mapLookup_delete_self, mapLookup_delete_ne, hne, statusKey_ne]
      · simp [reconcileDeleted, hsk, hst, hf, stopEntry,
          mapLookup_delete_self, mapLookup_delete_ne, hne, statusKey_ne]

/-- Witness for the amended C3: deleting the services descriptor with both
controllers registered closes channels 3 and 4, clears both entries, and
removes the finalizer last. -/
theorem c3_witness :
    Event.closeChan 3 ∈ (reconcile cfgHost envAllOK ⟨[deletedServicesFTC]⟩ stSyncAndStatus
        "services").events ∧
    Event.closeChan 4 ∈ (reconcile cfgHost envAllOK ⟨[deletedServicesFTC]⟩ stSyncAndStatus
        "services").events ∧
    mapLookup (reconcile cfgHost envAllOK ⟨[deletedServicesFTC]⟩ stSyncAndStatus
        "services").state.stopChannels "services" = none ∧
    (reconcile cfgHost envAllOK ⟨[deletedServicesFTC]⟩ stSyncAndStatus
        "services").events.getLast? = some (Event.finalizerRemoved "services") := by
  have h := c3_deletion_stops_controllers_then_removes_finalizer cfgHost envAllOK
    ⟨[deletedServicesFTC]⟩ stSyncAndStatus "services" deletedServicesFTC
    (by decide) (by decide) (by decide)
  exact ⟨(h.1 3 (by decide)).1, (h.2.1 4 (by decide)).1, h.2.2.1,
    h.2.2.2.2.2.2 (by decide) (by decide)⟩

/-- C4: for every reconcile of a non-deleted descriptor outside the special
case in which the sync controller is neither newly started nor stopped, if
status.observedGeneration differs from metadata.generation (and the
environment allows the restart to succeed), the sync controller is
refreshed: the currently registered stop channel, if any, is closed and its
entry removed, and exactly one new sync controller is started and
registered under the descriptor's name. -/
theorem c4_generation_advance_refreshes_sync_controller (cfg : ControllerConfig) (env : Env) (store : Store) (st : CtrlState)
    (name : String) (tc : FederatedTypeConfig)
    (hfound : store.getByName name = some tc)
    (hnotdel : tc.deletionTimestamp = false)
    (hnotspecial : specialCase cfg tc = false)
    (hfin : hasFinalizer tc = true ∨ env.patchOK = true)
    (hnostart : tc.propagationEnabled = true →
      (mapLookup st.stopChannels tc.name).isSome = true)
    (hnostop : ∀ ch, mapLookup st.stopChannels tc.name = some ch →
      tc.propagationEnabled = true
        ∧ (tc.targetNamespaced = true → namespaceFTCExists store = true))
    (hgen : ¬(tc.observedGeneration = tc.generation))
    (hns : tc.targetNamespaced = true → namespaceFTCExists store = true)
    (hok : env.syncStartOK = true)
    (hstat : mapLookup st.stopChannels (tc.name ++ "/status") = none →
      statusControllerEnabledFor cfg tc = true → env.statusStartOK = true) :
    (∃ ch, startedSyncChans (reconcile cfg env store st name).events = [ch] ∧
      mapLookup (reconcile cfg env store st name).state.stopChannels tc.name = some ch) ∧
    (∀ ch0, mapLookup st.stopChannels tc.name = some ch0 →
      Event.closeChan ch0 ∈ (reconcile cfg env store st name).events ∧
      Event.removeEntry tc.name ∈ (reconcile cfg env store st name).events) := by
  have hred : reconcile cfg env store st name
      = syncPhase cfg env store st (withFinalizer tc) (normalPrefix store tc)
          (mapLookup st.stopChannels tc.name)
          (mapLookup st.stopChannels (tc.name ++ "/status")) := by
    rw [show reconcile cfg env store st name = reconcileNormal cfg env store st tc from by
      simp [reconcile, hfound, hnotspecial, hnotdel]]
    exact reconcileNormal_eq cfg env store st tc hfin
  rw [hred]
  cases hsk : mapLookup st.stopChannels tc.name with
  | none =>
    have hprop : tc.propagationEnabled = false := by
      cases h : tc.propagationEnabled
      · rfl
      · have := hnostart h
        rw [hsk] at this
        cases this
    simp only [syncPhase]
    rw [if_neg (by simp [hprop])]
    have h := statusPhase_refresh cfg env store st (withFinalizer tc) (normalPrefix store tc)
      false (mapLookup st.stopChannels (tc.name ++ "/status"))
      (by simpa using hgen) (by simpa using hns) hok
      (by intro h1 h2; exact hstat (by simpa using h1) (by simpa using h2))
      (startedSyncChans_normalPrefix store tc)
    refine ⟨?_, ?_⟩
    · obtain ⟨ch, h1, h2⟩ := h.1
      exact ⟨ch, h1, by simpa using h2⟩
    · intro ch0 h0
      cases h0
  | some ch1 =>
    obtain ⟨hprop, hnsex⟩ := hnostop ch1 hsk
    have hstopc : ((!(withFinalizer tc).propagationEnabled)
        || ((withFinalizer tc).targetNamespaced && !namespaceFTCExists store)) = false := by
      simp only [withFinalizer_propagationEnabled, withFinalizer_targetNamespaced]
      cases h : tc.targetNamespaced
      · simp [hprop]
      · simp [hprop, hnsex h]
    simp only [syncPhase]
    rw [if_neg (by rw [hstopc]; simp)]
    have h := statusPhase_refresh cfg env store st (withFinalizer tc) (normalPrefix store tc)
      true (mapLookup st.stopChannels (tc.name ++ "/status"))
      (by simpa using hgen) (by simpa using hns) hok
      (by intro h1 h2; exact hstat (by simpa using h1) (by simpa using h2))
      (startedSyncChans_normalPrefix store tc)
    refine ⟨?_, ?_⟩
    · obtain ⟨ch, h1, h2⟩ := h.1
      exact ⟨ch, h1, by simpa using h2⟩
    · intro ch0 h0
      have hh := h.2 ch0 (by rw [show (withFinalizer tc).name = tc.name from by simp, hsk]; exact h0)
      simpa using hh

/-- The services descriptor with an advanced metadata generation. -/
def servicesFTCgen2 : FederatedTypeConfig :=
  { servicesFTC with generation := 2 }

/-- Witness for C4: with sync (channel 3) and status (channel 4)
controllers running for services and generation 2 observed at 1, the
reconcile closes channel 3, removes the entry, and starts exactly one new
sync controller registered under `services`. -/
theorem c4_witness :
    (∃ ch, startedSyncChans (reconcile cfgHost envAllOK ⟨[servicesFTCgen2, namespacesFTC]⟩
        stSyncAndStatus "services").events = [ch] ∧
      mapLookup (reconcile cfgHost envAllOK ⟨[servicesFTCgen2, namespacesFTC]⟩
        stSyncAndStatus "services").state.stopChannels "services" = some ch) ∧
    Event.closeChan 3 ∈ (reconcile cfgHost envAllOK ⟨[servicesFTCgen2, namespacesFTC]⟩
        stSyncAndStatus "services").events ∧
    Event.removeEntry "services" ∈ (reconcile cfgHost envAllOK ⟨[servicesFTCgen2, namespacesFTC]⟩
        stSyncAndStatus "services").events := by
  have h := c4_generation_advance_refreshes_sync_controller cfgHost envAllOK
    ⟨[servicesFTCgen2, namespacesFTC]⟩ stSyncAndStatus "services" servicesFTCgen2
    (by decide) (by decide) (by decide) (Or.inl (by decide))
    (by intro h1; decide)
    (by intro ch h1; exact ⟨by decide, by intro h2; decide⟩)
    (by decide) (by intro h1; decide) (by decide)
    (by intro h1 h2; exact absurd h1 (by decide))
  exact ⟨h.1, (h.2 3 (by decide)).1, (h.2 3 (by decide)).2⟩

/-- The namespaces descriptor marked for deletion. -/
def deletedNamespacesFTC : FederatedTypeConfig :=
  { namespacesFTC with deletionTimestamp := true }

/-- The namespaces descriptor before its finalizer is first added. -/
def newNamespacesFTC : FederatedTypeConfig :=
  { namespacesFTC with finalizers := [] }

/-- Counterexample to C5 as stated: the namespaces descriptor is itself a
namespaced descriptor in the store, but on its own deletion reconcile it is
not re-enqueued - `reconcileOnNamespaceFTCUpdate` excludes the namespaces
descriptor itself, so not every namespaced descriptor in the store is
re-enqueued. -/
theorem c5_counterexample :
    (Store.getByName ⟨[deletedNamespacesFTC]⟩ "namespaces" = some deletedNamespacesFTC ∧
      deletedNamespacesFTC.deletionTimestamp = true ∧
      deletedNamespacesFTC.targetNamespaced = true ∧
      deletedNamespacesFTC ∈ (⟨[deletedNamespacesFTC]⟩ : Store).items) ∧
    Event.enqueue "namespaces"
      ∉ (reconcile cfgHost envAllOK ⟨[deletedNamespacesFTC]⟩ initialState
        "namespaces").events := by
  decide

/-- C5 (amended): whenever the namespaces type descriptor appears (its
finalizer is first added, outside the special case, with the patch
succeeding) or disappears (it is reconciled with a DeletionTimestamp set,
outside the special case), every namespaced type descriptor currently in
the store other than the namespaces descriptor itself is re-enqueued for
reconciliation. -/
theorem c5_namespaces_descriptor_triggers_namespaced_reenqueue (cfg : ControllerConfig) (env : Env) (store : Store) (st : CtrlState)
    (name : String) (tc : FederatedTypeConfig)
    (hfound : store.getByName name = some tc) :
    (tc.deletionTimestamp = true → specialCase cfg tc = false → isNamespace tc = true →
      ∀ tc2, tc2 ∈ store.items → tc2.targetNamespaced = true → isNamespace tc2 = false →
        Event.enqueue tc2.name ∈ (reconcile cfg env store st name).events) ∧
    (tc.deletionTimestamp = false → specialCase cfg tc = false → isNamespace tc = true →
      hasFinalizer tc = false → env.patchOK = true →
      ∀ tc2, tc2 ∈ store.items → tc2.targetNamespaced = true → isNamespace tc2 = false →
        Event.enqueue tc2.name ∈ (reconcile cfg env store st name).events) := by
  constructor
  · intro hdel hnotspecial hn tc2 hmem hn2 hns2
    have hred : reconcile cfg env store st name = reconcileDeleted env store st tc := by
      simp [reconcile, hfound, hnotspecial, hdel]
    rw [hred]
    exact reconcileDeleted_mem_enqueues env store st tc _ hn
      (enqueue_mem_reconcileOnNamespaceFTCUpdate store tc2 hmem hn2 hns2)
  · intro hnotdel hnotspecial hn hnofin hpatch tc2 hmem hn2 hns2
    have hred : reconcile cfg env store st name
        = syncPhase cfg env store st (withFinalizer tc) (normalPrefix store tc)
            (mapLookup st.stopChannels tc.name)
            (mapLookup st.stopChannels (tc.name ++ "/status")) := by
      rw [show reconcile cfg env store st name = reconcileNormal cfg env store st tc from by
        simp [reconcile, hfound, hnotspecial, hnotdel]]
      exact reconcileNormal_eq cfg env store st tc (Or.inr hpatch)
    rw [hred]
    obtain ⟨evs, hev⟩ := syncPhase_events_extend cfg env store st (withFinalizer tc)
      (normalPrefix store tc) (mapLookup st.stopChannels tc.name)
      (mapLookup st.stopChannels (tc.name ++ "/status"))
    rw [hev]
    have hpre : Event.enqueue tc2.name ∈ normalPrefix store tc := by
      unfold normalPrefix
      rw [if_neg (by simp [hnofin]), if_pos (by simp [hnofin, hn])]
      simp [enqueue_mem_reconcileOnNamespaceFTCUpdate store tc2 hmem hn2 hns2]
    simp [hpre]

/-- Witness for the amended C5: adding the finalizer to a fresh namespaces
descriptor re-enqueues the namespaced services descriptor. -/
theorem c5_witness :
    Event.enqueue "services"
      ∈ (reconcile cfgHost envAllOK ⟨[newNamespacesFTC, servicesFTC]⟩ initialState
        "namespaces").events := by
  have h := c5_namespaces_descriptor_triggers_namespaced_reenqueue cfgHost envAllOK
    ⟨[newNamespacesFTC, servicesFTC]⟩ initialState "namespaces" newNamespacesFTC
    (by decide)
  exact h.2 (by decide) (by decide) (by decide) (by decide) (by decide)
    servicesFTC (by decide) (by decide) (by decide)

/-- C6: at most one sync controller and at most one status controller are
registered per type descriptor: starting from a map with no duplicate keys,
every reconcile registers a new controller (or placeholder) only under a
key that is currently absent from the map, the resulting map again has no
duplicate keys (so at most one entry under a descriptor's name and one
under its status key), and the initial controller state trivially satisfies
the invariant. -/
theorem c6_at_most_one_controller_per_descriptor
    (cfg : ControllerConfig) (env : Env) (store : Store) (st : CtrlState) (name : String)
    (hnodup : (mapKeys st.stopChannels).Nodup) :
    addsOnlyWhenAbsent st.stopChannels (reconcile cfg env store st name).events = true ∧
    (mapKeys (reconcile cfg env store st name).state.stopChannels).Nodup ∧
    (mapKeys initialState.stopChannels).Nodup := by
  obtain ⟨h1, h2⟩ := reconcile_replay cfg env store st name
  refine ⟨h1, ?_, by simp [initialState, mapKeys]⟩
  rw [h2]
  exact nodup_replay _ _ hnodup h1

/-- Witness for C6: a reconcile that stops and restarts the services sync
controller and keeps the status controller registered preserves the
invariant. -/
theorem c6_witness :
    addsOnlyWhenAbsent stSyncAndStatus.stopChannels
      (reconcile cfgHost envAllOK ⟨[servicesFTCgen2, namespacesFTC]⟩ stSyncAndStatus
        "services").events = true ∧
    (mapKeys (reconcile cfgHost envAllOK ⟨[servicesFTCgen2, namespacesFTC]⟩ stSyncAndStatus
        "services").state.stopChannels).Nodup := by
  have h := c6_at_most_one_controller_per_descriptor cfgHost envAllOK
    ⟨[servicesFTCgen2, namespacesFTC]⟩ stSyncAndStatus "services" (by decide)
  exact ⟨h.1, h.2.1⟩

/-- C9 counterexample: under a namespace-scoped control plane, reconciling the
cluster-scoped `clusterroles` descriptor (status collection disabled) takes the
special-case branch, which returns before the status-controller stop logic: the
running status controller's entry survives and its channel is never closed, so
"a running one is stopped" fails as stated. -/
theorem c9_counterexample :
    (Store.getByName ⟨[clusterRolesFTC]⟩ "clusterroles" = some clusterRolesFTC ∧
      clusterRolesFTC.statusEnabled = false ∧
      mapLookup stClusterStatus.stopChannels ("clusterroles" ++ "/status") = some 7) ∧
    mapLookup (reconcile cfgLimited envAllOK ⟨[clusterRolesFTC]⟩ stClusterStatus
        "clusterroles").state.stopChannels ("clusterroles" ++ "/status") = some 7 ∧
    Event.closeChan 7 ∉ (reconcile cfgLimited envAllOK ⟨[clusterRolesFTC]⟩ stClusterStatus
        "clusterroles").events := by
  decide

/-- C9 (amended): a status controller is started only when the
RawResourceStatusCollection feature is disabled, the descriptor's
status-collection flag is enabled, its name is exactly "services", and it
defines a status API resource; and for a descriptor failing those conditions a
running status controller is stopped (channel closed, entry removed) provided
the reconcile reaches the stop logic: the special-case branch does not apply,
and the pass either handles a deletion or ensures the finalizer and completes
the sync phase without error. -/
theorem c9_status_controller_started_only_for_services (cfg : ControllerConfig) (env : Env)
    (store : Store) (st : CtrlState) (name : String) (tc : FederatedTypeConfig)
    (hfound : store.getByName name = some tc) :
    (∀ n ch, Event.statusStarted n ch ∈ (reconcile cfg env store st name).events →
      cfg.rawResourceStatusCollection = false ∧ tc.statusEnabled = true ∧
      tc.name = "services" ∧ tc.statusType.isSome = true) ∧
    (∀ ch, mapLookup st.stopChannels (tc.name ++ "/status") = some ch →
      statusControllerEnabledFor cfg tc = false →
      specialCase cfg tc = false →
      (tc.deletionTimestamp = true ∨
        (tc.deletionTimestamp = false ∧ (hasFinalizer tc = true ∨ env.patchOK = true)
          ∧ syncPhaseOk env store st tc = true)) →
      Event.closeChan ch ∈ (reconcile cfg env store st name).events ∧
      mapLookup (reconcile cfg env store st name).state.stopChannels (tc.name ++ "/status")
        = none) := by
  constructor
  · by_cases he : statusControllerEnabledFor cfg tc = true
    · intro n ch hmem
      exact (statusControllerEnabledFor_eq_true_iff cfg tc).mp he
    · have hdis : statusControllerEnabledFor cfg tc = false := by
        simpa using he
      have hnone : startedStatusChans (reconcile cfg env store st name).events = [] := by
        by_cases hsp : specialCase cfg tc = true
        · rw [show reconcile cfg env store st name = reconcileSpecial env st tc from by
            simp [reconcile, hfound, hsp]]
          exact startedStatusChans_special env st tc
        · by_cases hdel : tc.deletionTimestamp = true
          · rw [show reconcile cfg env store st name = reconcileDeleted env store st tc from by
              simp [reconcile, hfound, hsp, hdel]]
            exact startedStatusChans_deleted env store st tc
          · rw [show reconcile cfg env store st name = reconcileNormal cfg env store st tc from by
              simp [reconcile, hfound, hsp, hdel]]
            unfold reconcileNormal
            by_cases herr : (!hasFinalizer tc && !env.patchOK) = true
            · rw [if_pos herr]
              rfl
            · rw [if_neg herr]
              rw [syncPhase_statusStarted_disabled cfg env store st (withFinalizer tc)
                (normalPrefix store tc) (mapLookup st.stopChannels tc.name)
                (mapLookup st.stopChannels (tc.name ++ "/status")) (by simpa using hdis)]
              exact startedStatusChans_normalPrefix store tc
      intro n ch hmem
      have := mem_startedStatusChans n ch _ hmem
      rw [hnone] at this
      cases this
  · intro ch hsome hdis hnotspecial hcase
    rcases hcase with hdel | ⟨hnotdel, hfin, hso⟩
    · rw [show reconcile cfg env store st name = reconcileDeleted env store st tc from by
        simp [reconcile, hfound, hnotspecial, hdel]]
      unfold reconcileDeleted
      cases hsk : mapLookup st.stopChannels tc.name <;>
        by_cases hf : hasFinalizer tc = true <;>
          by_cases hp : env.patchOK = true <;>
            simp [hsk, hsome, hf, hp, stopEntry, mapLookup_delete_self,
              mapLookup_delete_ne _ _ _ (statusKey_ne tc.name)]
    · rw [show reconcile cfg env store st name
          = syncPhase cfg env store st (withFinalizer tc) (normalPrefix store tc)
              (mapLookup st.stopChannels tc.name)
              (mapLookup st.stopChannels (tc.name ++ "/status")) from by
        rw [show reconcile cfg env store st name = reconcileNormal cfg env store st tc from by
          simp [reconcile, hfound, hnotspecial, hnotdel]]
        exact reconcileNormal_eq cfg env store st tc hfin]
      rw [hsome]
      have h := syncPhase_stop_status cfg env store st (withFinalizer tc)
        (normalPrefix store tc) (mapLookup st.stopChannels tc.name) ch
        (startedStatusChans_normalPrefix store tc)
        (by simp) (by simpa [syncPhaseOk] using hso) (by simpa using hdis)
      exact ⟨h.1, by simpa using h.2.2.1⟩

/-- C9 witness: reconciling a `services` descriptor whose status collection was
switched off, in a state where a status controller is running under channel 4,
closes that channel and removes the `services/status` entry. -/
theorem c9_witness :
    Event.closeChan 4 ∈ (reconcile cfgHost envAllOK ⟨[servicesNoStatusFTC, namespacesFTC]⟩
        stSyncAndStatus "services").events ∧
      mapLookup (reconcile cfgHost envAllOK ⟨[servicesNoStatusFTC, namespacesFTC]⟩
        stSyncAndStatus "services").state.stopChannels ("services" ++ "/status") = none := by
  exact (c9_status_controller_started_only_for_services cfgHost envAllOK
      ⟨[servicesNoStatusFTC, namespacesFTC]⟩ stSyncAndStatus
      "services" servicesNoStatusFTC (by decide)).2 4 (by decide) (by decide) (by decide)
    (Or.inr ⟨by decide, Or.inl (by decide), by decide⟩)


/-- C10 counterexample: the namespaced-control-plane special case registers a
placeholder stop channel under the descriptor's name although no controller
was started in the pass, so "an entry is registered in the map only after the
controller was started successfully" fails as stated. -/
theorem c10_counterexample :
    (Store.getByName ⟨[clusterRolesFTC]⟩ "clusterroles" = some clusterRolesFTC ∧
      mapLookup initialState.stopChannels "clusterroles" = none) ∧
    mapLookup (reconcile cfgLimited envAllOK ⟨[clusterRolesFTC]⟩ initialState
        "clusterroles").state.stopChannels "clusterroles" = some 0 ∧
    startedSyncChans (reconcile cfgLimited envAllOK ⟨[clusterRolesFTC]⟩ initialState
        "clusterroles").events = [] ∧
    startedStatusChans (reconcile cfgLimited envAllOK ⟨[clusterRolesFTC]⟩ initialState
        "clusterroles").events = [] := by
  decide

/-- C10 (amended): outside the namespaced-control-plane special case — which
registers a placeholder channel under the descriptor's name without starting
any controller — if starting the sync controller fails in the main pass, the
reconcile returns Error, leaves the stop-channel map unchanged, closes the
freshly allocated channel and adds no entry; if starting the status controller
fails, the reconcile returns Error, registers nothing under the status key and
closes the freshly allocated channel; and in every pass the map registrations
are exactly, key for key and channel for channel, the successful controller
starts. -/
theorem c10_failed_start_leaves_no_entry (cfg : ControllerConfig) (env : Env) (store : Store) (st : CtrlState)
    (name : String) (tc : FederatedTypeConfig)
    (hfound : store.getByName name = some tc)
    (hsp : specialCase cfg tc = false) :
    (tc.deletionTimestamp = false →
      (hasFinalizer tc = true ∨ env.patchOK = true) →
      mapLookup st.stopChannels tc.name = none →
      tc.propagationEnabled = true →
      (tc.targetNamespaced && !namespaceFTCExists store) = false →
      env.syncStartOK = false →
      (reconcile cfg env store st name).status = .error ∧
      (reconcile cfg env store st name).state.stopChannels = st.stopChannels ∧
      Event.closeChan st.chans.nextId ∈ (reconcile cfg env store st name).events ∧
      addEntryKeys (reconcile cfg env store st name).events = []) ∧
    (tc.deletionTimestamp = false →
      (hasFinalizer tc = true ∨ env.patchOK = true) →
      syncPhaseOk env store st tc = true →
      mapLookup st.stopChannels (tc.name ++ "/status") = none →
      statusControllerEnabledFor cfg tc = true →
      env.statusStartOK = false →
      (reconcile cfg env store st name).status = .error ∧
      mapLookup (reconcile cfg env store st name).state.stopChannels (tc.name ++ "/status")
        = none ∧
      (tc.name ++ "/status") ∉ addEntryKeys (reconcile cfg env store st name).events ∧
      ∃ fresh, Event.statusStartFailed (tc.name ++ "/status") fresh
          ∈ (reconcile cfg env store st name).events ∧
        Event.closeChan fresh ∈ (reconcile cfg env store st name).events) ∧
    regPairs (reconcile cfg env store st name).events
      = startPairs (reconcile cfg env store st name).events := by
  refine ⟨?_, ?_, ?_⟩
  · intro hdel hfin hsk hprop hguard hstart
    rw [show reconcile cfg env store st name = reconcileNormal cfg env store st tc from by
      simp [reconcile, hfound, hsp, hdel]]
    unfold reconcileNormal
    rw [if_neg (by rcases hfin with h | h <;> simp [h])]
    rw [show mapLookup st.stopChannels tc.name = none from hsk]
    simp only [syncPhase]
    rw [if_pos (by simpa using hprop), if_neg (by simpa using hguard), if_neg (by simp [hstart])]
    refine ⟨rfl, rfl, ?_, ?_⟩
    · exact List.mem_append.mpr (Or.inr (by simp))
    · simp only [addEntryKeys_append, addEntryKeys_normalPrefix, List.nil_append]
      simp [addEntryKeys]
  · intro hdel hfin hso hstat henabled hsstart
    rw [show reconcile cfg env store st name = reconcileNormal cfg env store st tc from by
      simp [reconcile, hfound, hsp, hdel]]
    unfold reconcileNormal
    rw [if_neg (by rcases hfin with h | h <;> simp [h])]
    rw [show mapLookup st.stopChannels (tc.name ++ "/status") = none from hstat]
    cases hsk : mapLookup st.stopChannels tc.name with
    | none =>
      simp only [syncPhase]
      by_cases hprop : tc.propagationEnabled = true
      · rw [if_pos (by simpa using hprop)]
        by_cases hguard : (tc.targetNamespaced && !namespaceFTCExists store) = true
        · exfalso
          simp [syncPhaseOk, hsk, hprop, hguard] at hso
        · rw [if_neg (by simpa using hguard)]
          by_cases hss : env.syncStartOK = true
          · rw [if_pos hss]
            simp only [statusPhase]
            rw [if_pos (by simpa using henabled), if_neg (by simp [hsstart])]
            refine ⟨rfl, ?_, ?_, ?_⟩
            · have hbase : mapLookup ((tc.name, st.chans.nextId) :: st.stopChannels)
                  (tc.name ++ "/status") = none := by
                rw [mapLookup_cons_ne _ _ _ _ (statusKey_ne tc.name), hstat]
              simpa only [closeFreshChan, addFreshEntry, withFinalizer_name] using hbase
            · rw [List.append_assoc]
              simp only [addEntryKeys_append, addEntryKeys_normalPrefix, List.nil_append]
              simp [addEntryKeys, statusKey_ne tc.name]
            · exact ⟨(addFreshEntry st tc.name).chans.nextId,
                List.mem_append.mpr (Or.inr (by simp)),
                List.mem_append.mpr (Or.inr (by simp))⟩
          · exfalso
            simp [syncPhaseOk, hsk, hprop, hss] at hso
      · rw [if_neg (by simpa using hprop)]
        simp only [statusPhase]
        rw [if_pos (by simpa using henabled), if_neg (by simp [hsstart])]
        refine ⟨rfl, by simpa only [closeFreshChan] using hstat, ?_, ?_⟩
        · simp only [addEntryKeys_append, addEntryKeys_normalPrefix, List.nil_append]
          simp [addEntryKeys]
        · exact ⟨st.chans.nextId,
            List.mem_append.mpr (Or.inr (by simp)),
            List.mem_append.mpr (Or.inr (by simp))⟩
    | some ch =>
      simp only [syncPhase]
      by_cases hstop : (!(withFinalizer tc).propagationEnabled
          || ((withFinalizer tc).targetNamespaced && !namespaceFTCExists store)) = true
      · rw [if_pos hstop]
        simp only [statusPhase]
        rw [if_pos (by simpa using henabled), if_neg (by simp [hsstart])]
        refine ⟨rfl, ?_, ?_, ?_⟩
        · have hbase : mapLookup (mapDelete st.stopChannels tc.name) (tc.name ++ "/status")
              = none := by
            rw [mapLookup_delete_ne _ _ _ (statusKey_ne tc.name), hstat]
          simpa only [closeFreshChan, stopEntry, withFinalizer_name] using hbase
        · rw [List.append_assoc]
          simp only [addEntryKeys_append, addEntryKeys_normalPrefix, List.nil_append]
          simp [addEntryKeys]
        · exact ⟨(stopEntry st tc.name ch).chans.nextId,
            List.mem_append.mpr (Or.inr (by simp)),
            List.mem_append.mpr (Or.inr (by simp))⟩
      · rw [if_neg hstop]
        simp only [statusPhase]
        rw [if_pos (by simpa using henabled), if_neg (by simp [hsstart])]
        refine ⟨rfl, by simpa only [closeFreshChan] using hstat, ?_, ?_⟩
        · simp only [addEntryKeys_append, addEntryKeys_normalPrefix, List.nil_append]
          simp [addEntryKeys]
        · exact ⟨st.chans.nextId,
            List.mem_append.mpr (Or.inr (by simp)),
            List.mem_append.mpr (Or.inr (by simp))⟩
  · by_cases hdel : tc.deletionTimestamp = true
    · rw [show reconcile cfg env store st name = reconcileDeleted env store st tc from by
        simp [reconcile, hfound, hsp, hdel]]
      rw [(regPairs_deleted env store st tc).1, (regPairs_deleted env store st tc).2]
    · rw [show reconcile cfg env store st name = reconcileNormal cfg env store st tc from by
        simp [reconcile, hfound, hsp, hdel]]
      unfold reconcileNormal
      by_cases herr : (!hasFinalizer tc && !env.patchOK) = true
      · rw [if_pos herr]
        rfl
      · rw [if_neg herr]
        obtain ⟨t, ht, hp⟩ := syncPhase_pairs cfg env store st (withFinalizer tc)
          (normalPrefix store tc) (mapLookup st.stopChannels tc.name)
          (mapLookup st.stopChannels (tc.name ++ "/status"))
        rw [ht]
        simp only [regPairs_append, startPairs_append, hp,
          regPairs_normalPrefix, startPairs_normalPrefix]

/-- C10 witness: with the sync start failing, reconciling `services` from the
empty state returns Error with the map unchanged and no registration; with the
status start failing, it returns Error with nothing under `services/status`. -/
theorem c10_witness :
    ((reconcile cfgHost envSyncFail ⟨[servicesFTC, namespacesFTC]⟩ initialState
        "services").status = ReconciliationStatus.error ∧
      (reconcile cfgHost envSyncFail ⟨[servicesFTC, namespacesFTC]⟩ initialState
        "services").state.stopChannels = initialState.stopChannels ∧
      addEntryKeys (reconcile cfgHost envSyncFail ⟨[servicesFTC, namespacesFTC]⟩ initialState
        "services").events = []) ∧
    ((reconcile cfgHost envStatusFail ⟨[servicesFTC, namespacesFTC]⟩ initialState
        "services").status = ReconciliationStatus.error ∧
      mapLookup (reconcile cfgHost envStatusFail ⟨[servicesFTC, namespacesFTC]⟩ initialState
        "services").state.stopChannels ("services" ++ "/status") = none) := by
  constructor
  · have h := (c10_failed_start_leaves_no_entry cfgHost envSyncFail ⟨[servicesFTC, namespacesFTC]⟩ initialState
        "services" servicesFTC (by decide) (by decide)).1 (by decide) (Or.inl (by decide))
      (by decide) (by decide) (by decide) (by decide)
    exact ⟨h.1, h.2.1, h.2.2.2⟩
  · have h := (c10_failed_start_leaves_no_entry cfgHost envStatusFail ⟨[servicesFTC, namespacesFTC]⟩ initialState
        "services" servicesFTC (by decide) (by decide)).2.1 (by decide) (Or.inl (by decide))
      (by decide) (by decide) (by decide) (by decide)
    exact ⟨h.1, h.2.1⟩

/-- C7: on deletion without the orphan annotation, and for a cluster dropped
from placement, the primary/host cluster's namespace is never deleted, only
unlabelled, while a non-primary cluster's namespace and any non-namespace
target are deleted wherever held; the CRUD tester's per-cluster oracles agree:
for the primary cluster of a namespace target, deletion polling accepts the
namespace as soon as it is present unlabelled, while for other clusters it
accepts only a not-found, and `CheckPropagation` dispatches the unselected
primary cluster of a namespace target to the host-namespace-unlabeled check. -/
theorem c7_primary_namespace_retained_unlabeled :
    (∀ holdsTarget : Bool,
      deletionSubflowDisposition false true true holdsTarget ≠ TargetDisposition.deleteTarget ∧
      unselectedClusterDisposition true true holdsTarget ≠ TargetDisposition.deleteTarget) ∧
    (deletionSubflowDisposition false true true true = TargetDisposition.unlabelTarget ∧
      unselectedClusterDisposition true true true = TargetDisposition.unlabelTarget) ∧
    (deletionSubflowDisposition false true false true = TargetDisposition.deleteTarget ∧
      unselectedClusterDisposition true false true = TargetDisposition.deleteTarget) ∧
    (∀ isPrimary : Bool,
      deletionSubflowDisposition false false isPrimary true = TargetDisposition.deleteTarget) ∧
    (∀ managed : Bool,
      checkDeleteCondition true true true (ObsResult.present managed)
        = (if managed then PollOutcome.retry else PollOutcome.done) ∧
      checkHostNamespaceUnlabeledCondition (ObsResult.present managed)
        = (if managed then PollOutcome.retry else PollOutcome.done)) ∧
    (∀ targetIsNamespace : Bool,
      checkDeleteCondition true targetIsNamespace false ObsResult.notFound = PollOutcome.done ∧
      ∀ managed : Bool, checkDeleteCondition true targetIsNamespace false
        (ObsResult.present managed) = PollOutcome.retry) ∧
    propagationCheckKind false true true = ClusterCheckKind.hostNamespaceUnlabeled := by
  decide

/-- C8: the event filter forwards only semantic changes: every add triggers
with the new object, a delete triggers with the deleted object, a
deleted-final-state-unknown tombstone triggers exactly when it carries an
object, an update of deep-equal objects triggers nothing, and an update that
changes the object (here: adding an annotation, as in `TestHandlers`) triggers
with the new object. -/
theorem c8_event_filter_forwards_semantic_changes :
    (∀ o : WatchObject, triggerOnAllChanges (WatchEvent.add o) = some o ∧
      triggerOnAllChanges (WatchEvent.delete o) = some o ∧
      triggerOnAllChanges (WatchEvent.deleteTombstone (some o)) = some o ∧
      triggerOnAllChanges (WatchEvent.update o o) = none) ∧
    triggerOnAllChanges (WatchEvent.deleteTombstone none) = none ∧
    (∀ old cur : WatchObject, old ≠ cur →
      triggerOnAllChanges (WatchEvent.update old cur) = some cur) ∧
    (triggerOnAllChanges (WatchEvent.update testService testService2) = some testService2 ∧
      triggerOnAllChanges (WatchEvent.update testService testService) = none) := by
  refine ⟨?_, rfl, ?_, by decide⟩
  · intro o
    refine ⟨rfl, rfl, rfl, ?_⟩
    simp [triggerOnAllChanges]
  · intro old cur h
    simp [triggerOnAllChanges, h]

/-- C8 witness: the annotation-adding update of `TestHandlers` is a genuine
change and triggers with the new object. -/
theorem c8_witness :
    testService ≠ testService2 ∧
    triggerOnAllChanges (WatchEvent.update testService testService2) = some testService2 := by
  refine ⟨by decide, ?_⟩
  exact c8_event_filter_forwards_semantic_changes.2.2.1 testService testService2 (by decide)

end KubeFed
